import Mathlib

/-!
# Verification of azure-entities against its specification

This file embeds the core of the `azure-entities` library (a typed
object-mapping layer over a partition/row keyed table store) in Lean 4 and
proves, or refutes, a list of claims about it.

The embedding is shallow: JavaScript objects become association lists or
functions, promises become explicit `Except`-valued state transformers, the
backend (network or the in-memory test double from `src/inmemory.js`) becomes
a pure state machine, and the nondeterministic environment seen by the
optimistic-concurrency `modify` loop becomes an explicit trace of backend
responses.  JavaScript numbers are modelled as `Int`/`Nat`.  External
collaborators (`sha1`, `json-stable-stringify`) that are only used as opaque
content hashes are taken as parameters; everything else is translated
from the source files.
-/

namespace AzureEntities

/-! ## Schema configuration (`Entity.configure`, lib/entity.js)

`Entity.configure` builds a new subclass from a previous one.  The parts of
the class state that the configure-time assertions read are: the previously
configured version (`__version`, 0 on the base class), whether any earlier
version required signing (`__hasSigning`), whether `setup` already ran, the
saved partition/row key definitions and the locked (key-covering) properties.

Property types are JavaScript constructor functions compared with `===`; we
model them as an abstract type `Ty` with decidable equality.  A key
definition is a function of the property mapping exposing the list of
property names it covers; for configuration checking only the covered names
matter, so a key definition is modelled by its cover list. -/

/-- List of property names reserved or conflicting with method names
(`RESERVED_PROPERTY_NAMES` in lib/entity.js). -/
def RESERVED_PROPERTY_NAMES : List String :=
  ["PartitionKey", "RowKey", "Timestamp", "Version", "Signature",
   "version", "modify", "remove"]

/-- The property-name check `/^[a-zA-Z_-][a-zA-Z0-9_-]*$/`. -/
def isIdentChar (c : Char) : Bool :=
  c.isAlpha || c.isDigit || c = '_' || c = '-'

/-- First character of a property name: `[a-zA-Z_-]`. -/
def isIdentStart (c : Char) : Bool :=
  c.isAlpha || c = '_' || c = '-'

/-- `/^[a-zA-Z_-][a-zA-Z0-9_-]*$/.test(name)` -/
def isProperIdentifier (s : String) : Bool :=
  match s.data with
  | [] => false
  | c :: cs => isIdentStart c && cs.all isIdentChar

/-- `/^__/.test(name)` -/
def hasDunderPrefix (s : String) : Bool :=
  match s.data with
  | c1 :: c2 :: _ => c1 = '_' && c2 = '_'
  | _ => false

/-- The options object passed to `Entity.configure`, restricted to the fields
the configure-time assertions read.  `properties` is the (ordered) property
name ↦ Type mapping; `partitionKey`/`rowKey` are key definitions modelled by
their cover lists (`none` when the option is not given); `migrate` records
whether a migration function was supplied; `signEntities`/`context` are
`none` when omitted (the source applies `_.defaults`). -/
structure ConfigOptions (Ty : Type) where
  version : Nat
  properties : List (String × Ty)
  context : Option (List String) := none
  signEntities : Option Bool := none
  partitionKey : Option (List String) := none
  rowKey : Option (List String) := none
  migrate : Bool := false

/-- The class-prototype state read and written by `Entity.configure`. -/
structure ClassState (Ty : Type) where
  version : Nat := 0              -- `__version`, 0 before any configure
  hasSigning : Bool := false      -- `__hasSigning`
  hasEncrypted : Bool := false    -- `__hasEncrypted`
  isSetup : Bool := false         -- `__client`/`__aux`/`__table` defined
  pkDef : Option (List String) := none  -- `__partitionKeyDefinition` (covers)
  rkDef : Option (List String) := none  -- `__rowKeyDefinition` (covers)
  locked : List (String × Ty) := []     -- `__lockedPropertiesDefinition`

variable {Ty : Type} [DecidableEq Ty]

/-- Look up a property name in a property mapping (JavaScript object access,
names are unique). -/
def propLookup (props : List (String × Ty)) (name : String) : Option Ty :=
  (props.find? (fun p => p.1 = name)).map (·.2)

/-- The `options.context` validation loop of `Entity.configure`: every
context key must be neither reserved nor declared in `properties`. -/
def contextKeysOk (props : List (String × Ty)) (context : List String) : Bool :=
  context.all fun key =>
    ¬ RESERVED_PROPERTY_NAMES.contains key && (propLookup props key).isNone

/-- The property-name validation loop of `Entity.configure`. -/
def propertyNamesOk (props : List (String × Ty)) : Bool :=
  props.all fun p =>
    ¬ RESERVED_PROPERTY_NAMES.contains p.1 && ¬ hasDunderPrefix p.1 &&
      isProperIdentifier p.1

/-- The locked-property set built for version 1: each name covered by the
partition or row key paired with its declared type. -/
def lockProperties (props : List (String × Ty)) (covers : List String) :
    List (String × Ty) :=
  covers.filterMap fun name => (propLookup props name).map fun ty => (name, ty)

/-- One validation step of `Entity.configure`, from the `assert` calls in
lib/entity.js, in source order.  Returns the updated class state on success
and the text of the first failing assertion otherwise.  (Type construction
`new Type(property)` cannot fail in the model: a `Ty` value is always a
constructor function.) -/
def configure (st : ClassState Ty) (o : ConfigOptions Ty) :
    Except String (ClassState Ty) :=
  -- assert(!this.prototype.__hasSigning ||
  --        typeof options.signEntities === 'boolean')
  if st.hasSigning ∧ o.signEntities = none then
    .error "when signEntities has been specified once, newer versions MUST specify it explicitly"
  -- options = _.defaults({}, options, {context: [], signEntities: false});
  -- validate options.context
  else if ¬ contextKeysOk o.properties (o.context.getD []) then
    .error "invalid context property name"
  -- validate property names
  else if ¬ propertyNamesOk o.properties then
    .error "invalid property name"
  -- don't allow configure to run after setup
  else if st.isSetup then
    .error "this Entity subclass is already setup"
  -- check that version is incremented by 1
  else if o.version ≠ st.version + 1 then
    .error "version must be incremented by 1 (and only 1)"
  else if o.version = 1 then
    -- version 1 must supply the key definitions, which are saved
    match o.partitionKey, o.rowKey with
    | none, _ => .error "partitionKey is required in version 1"
    | some _, none => .error "rowKey is required in version 1"
    | some pk, some rk =>
      -- lock the properties covered by the keys (covers = pk ++ rk), all of
      -- which must be defined
      if ¬ (pk ++ rk).all (fun name => (propLookup o.properties name).isSome) then
        .error "property referenced in partition/row key(s) must be defined"
      else
        .ok { st with
          version := o.version
          hasSigning := st.hasSigning || o.signEntities.getD false
          hasEncrypted := st.hasEncrypted
          pkDef := some pk
          rkDef := some rk
          locked := lockProperties o.properties (pk ++ rk) }
  else
    -- version > 1 may not redeclare the keys
    if o.partitionKey.isSome then
      .error "you cannot redefine the partitionKey"
    else if o.rowKey.isSome then
      .error "you cannot redefine the rowKey"
    -- validate that locked properties have not changed (Type compared by ===)
    else if ¬ st.locked.all (fun p => propLookup o.properties p.1 = some p.2) then
      .error "type of property referenced in partition/row key cannot be changed during migration"
    -- `migrate` must be specified for version > 1 (asserted while defining
    -- `__deserialize` for the version > 1 case)
    else if ¬ o.migrate then
      .error "migrate must be specified for version > 1"
    else
      .ok { st with
        version := o.version
        hasSigning := st.hasSigning || o.signEntities.getD false
        locked := st.locked }

/-! ## The in-memory backend (`src/inmemory.js`)

`InMemoryWrapper` implements the backend operation contract over a global
`tables` object.  A stored entity is a flat JavaScript object mapping column
names to primitive values; we model it as an association list of `CellVal`s
(JavaScript numbers are modelled as `Int`, buffers as byte lists).  The
content-derived ETag is `sha1(stable-stringify(annotated entity))`; the
`sha1 ∘ stringify` composite is an external library call and enters the model
as an opaque `hash : Record → String` parameter, while the canonicalization
feeding it (dropping `odata.*` metadata and adding `@odata.type` annotations)
is translated from `entityEtag`. -/

/-- A primitive cell value of a stored entity. -/
inductive CellVal where
  | str (s : String)
  | num (n : Int)
  | bool (b : Bool)
  | bin (bytes : List Nat)
deriving DecidableEq

/-- A stored entity: a flat object mapping column names to primitives. -/
def Record := List (String × CellVal)

instance : DecidableEq Record := by unfold Record; infer_instance

/-- Association-list lookup, modelling JavaScript object property access
(keys are unique). -/
def assocGet {α : Type} (l : List (String × α)) (k : String) : Option α :=
  (l.find? (fun p => p.1 = k)).map (·.2)

/-- Association-list update, modelling JavaScript property assignment:
overwrite in place if the key exists (keys are unique), otherwise append. -/
def assocSet {α : Type} : List (String × α) → String → α → List (String × α)
  | [], k, v => [(k, v)]
  | p :: l, k, v => if p.1 = k then (k, v) :: l else p :: assocSet l k v

/-- `entity[k]` as a string; defaults to `""` for claims that always supply
string-valued key columns. -/
def getStrD (e : Record) (k : String) : String :=
  match assocGet e k with
  | some (.str s) => s
  | _ => ""

/-- `entity[k]` when it is a string cell, `none` otherwise (used where the
source compares a cell against a possibly-`undefined` string with `!=`). -/
def getStrOpt (e : Record) (k : String) : Option String :=
  match assocGet e k with
  | some (.str s) => some s
  | _ => none

/-- JavaScript truthiness of an optional string (`undefined` and `""` are
falsy). -/
def optTruthy (o : Option String) : Bool :=
  match o with
  | some s => s ≠ ""
  | none => false

/-- JavaScript truthiness of a cell value. -/
def cellTruthy (o : Option CellVal) : Bool :=
  match o with
  | some (.str s) => s ≠ ""
  | some (.num n) => n ≠ 0
  | some (.bool b) => b
  | some (.bin _) => true
  | none => false

/-- `makeKey`: `partitionKey.replace(/!/g, '!!') + '!' + rowKey.replace(...)`. -/
def escapeBang (s : String) : String :=
  ⟨s.data.flatMap fun c => if c = '!' then ['!', '!'] else [c]⟩

/-- Composite storage key of an entity in a table. -/
def makeKey (partitionKey rowKey : String) : String :=
  escapeBang partitionKey ++ "!" ++ escapeBang rowKey

/-- `/^odata\./.test(key)`, the `odataPrefix` regex of inmemory.js. -/
def odataPrefixed (s : String) : Bool :=
  match s.data with
  | 'o' :: 'd' :: 'a' :: 't' :: 'a' :: '.' :: _ => true
  | _ => false

/-- `/@odata\.type$/.test(key)`, the `odataSuffix` regex of inmemory.js. -/
def odataTypeSuffixed (s : String) : Bool :=
  (s.data.reverse.take 11).reverse = "@odata.type".data

/-- The `@odata.type` annotation `entityEtag` infers for an unannotated cell:
booleans are `Edm.Boolean`, integral numbers `Edm.Int32` (our numbers are
`Int`, so `v % 1 === 0` always holds), everything else `Edm.String`. -/
def odataTypeOf : CellVal → String
  | .bool _ => "Edm.Boolean"
  | .num _ => "Edm.Int32"
  | _ => "Edm.String"

/-- The canonical record hashed by `entityEtag`: drop every `odata.*` key,
then add a `<name>@odata.type` annotation for each cell that is neither an
annotation itself nor already annotated. -/
def etagCanonical (e : Record) : Record :=
  let base := e.filter fun p => ¬ odataPrefixed p.1
  base ++ (base.filterMap fun p =>
    if odataTypeSuffixed p.1 then none
    else if cellTruthy (assocGet base (p.1 ++ "@odata.type")) then none
    else some (p.1 ++ "@odata.type", CellVal.str (odataTypeOf p.2)))

/-- `entityEtag(entity)`: hash of the canonicalized record, where `hash`
stands for `sha1 ∘ json-stable-stringify`. -/
def entityEtag (hash : Record → String) (e : Record) : String :=
  hash (etagCanonical e)

/-- The process-wide state of the in-memory backend: the global `tables`
object (table name ↦ key ↦ record) plus the monotonic `Timestamp` counter
`ts`. -/
structure Store where
  tables : List (String × List (String × Record))
  ts : Nat := 1

/-- A backend error produced by `makeError(statusCode, code)`. -/
structure BackendError where
  statusCode : Nat
  code : String
deriving DecidableEq

/-- `updateTimestamp(entity)`: stamp the entity with the global counter and
advance the counter. -/
def updateTimestamp (st : Store) (e : Record) : Record × Store :=
  (assocSet (assocSet e "Timestamp" (.num st.ts)) "Timestamp@odata.type"
      (.str "Edm.Int32"),
   { st with ts := st.ts + 1 })

/-- `InMemoryWrapper.prototype.createTable`. -/
def createTable (t : String) (st : Store) : Except BackendError Store :=
  if (assocGet st.tables t).isSome then
    .error ⟨409, "TableAlreadyExists"⟩
  else
    .ok { st with tables := assocSet st.tables t [] }

/-- `InMemoryWrapper.prototype.getEntity` (the unsupported `select`/`filter`
options are never used by entity.js and are omitted). -/
def getEntity (hash : Record → String) (t partitionKey rowKey : String)
    (st : Store) : Except BackendError Record :=
  match assocGet st.tables t with
  | none => .error ⟨404, "ResourceNotFound"⟩
  | some tbl =>
    match assocGet tbl (makeKey partitionKey rowKey) with
    | some r => .ok (assocSet r "odata.etag" (.str (entityEtag hash r)))
    | none => .error ⟨404, "ResourceNotFound"⟩

/-- `InMemoryWrapper.prototype.insertEntity`. -/
def insertEntity (hash : Record → String) (t : String) (e : Record)
    (st : Store) : Except BackendError (String × Store) :=
  let key := makeKey (getStrD e "PartitionKey") (getStrD e "RowKey")
  match assocGet st.tables t with
  | none => .error ⟨404, "ResourceNotFound"⟩
  | some tbl =>
    if (assocGet tbl key).isSome then
      .error ⟨409, "EntityAlreadyExists"⟩
    else
      -- entity = tables[key] = cloneDeep(entity); updateTimestamp(entity);
      -- eTag = entity['odata.etag'] = entityEtag(entity)
      let (e1, st1) := updateTimestamp st e
      let eTag := entityEtag hash e1
      let e2 := assocSet e1 "odata.etag" (.str eTag)
      .ok (eTag, { st1 with tables := assocSet st1.tables t (assocSet tbl key e2) })

/-- `InMemoryWrapper.prototype.updateEntity` with options `{mode, eTag}`;
`eTag = none` models a `null`/absent ETag. -/
def updateEntity (hash : Record → String) (t : String) (e : Record)
    (mode : String) (eTag : Option String) (st : Store) :
    Except BackendError (String × Store) :=
  let key := makeKey (getStrD e "PartitionKey") (getStrD e "RowKey")
  -- entity = cloneDeep(entity); entity['odata.etag'] = entityEtag(entity)
  let e1 := assocSet e "odata.etag" (.str (entityEtag hash e))
  match assocGet st.tables t with
  | none => .error ⟨404, "ResourceNotFound"⟩
  | some tbl =>
    match assocGet tbl key with
    | some existing =>
      -- if (options.eTag != '*') { if (options.eTag && options.eTag !=
      --   entityEtag(tables[this.table][key])) reject(412) }
      if eTag ≠ some "*" ∧ optTruthy eTag ∧ eTag ≠ some (entityEtag hash existing) then
        .error ⟨412, "UpdateConditionNotSatisfied"⟩
      else if mode = "replace" then
        .ok (entityEtag hash e1,
             { st with tables := assocSet st.tables t (assocSet tbl key e1) })
      else
        -- merge: copy each property of the update onto the existing entity
        let merged := e1.foldl (fun acc p => assocSet acc p.1 p.2) existing
        let merged2 := assocSet merged "odata.etag" (.str (entityEtag hash merged))
        .ok (entityEtag hash merged2,
             { st with tables := assocSet st.tables t (assocSet tbl key merged2) })
    | none =>
      if ¬ optTruthy eTag then
        -- insert when no ETag was required
        .ok (entityEtag hash e1,
             { st with tables := assocSet st.tables t (assocSet tbl key e1) })
      else if eTag ≠ some "*" then
        .error ⟨404, "ResourceNotFound"⟩
      else
        -- quirk preserved from the source: eTag '*' on a missing entity
        -- stores nothing but still resolves with the etag of the request
        .ok (entityEtag hash e1, st)

/-- `InMemoryWrapper.prototype.deleteEntity` with options `{eTag}`. -/
def deleteEntity (hash : Record → String) (t partitionKey rowKey : String)
    (eTag : Option String) (st : Store) : Except BackendError Store :=
  let key := makeKey partitionKey rowKey
  match assocGet st.tables t with
  | none => .error ⟨404, "ResourceNotFound"⟩
  | some tbl =>
    match assocGet tbl key with
    | none => .error ⟨404, "ResourceNotFound"⟩
    | some existing =>
      if eTag ≠ some "*" ∧ eTag ≠ some (entityEtag hash existing) then
        .error ⟨412, "UpdateConditionNotSatisfied"⟩
      else
        .ok { st with tables :=
                assocSet st.tables t (tbl.filter fun p => ¬ (p.1 = key)) }

/-- Result shape of `queryEntities`. -/
structure QueryResult where
  entities : List Record
  nextPartitionKey : Option String
  nextRowKey : Option String

/-- The pre-paging stage of `InMemoryWrapper.prototype.queryEntities`: take
the table's values, apply the structured filter (the condition array built
by `appendFilter`, each element evaluated by
`condition.type.compare(entity, condition.op)`, modelled as a predicate),
then shift entries until the head matches the
`(nextPartitionKey, nextRowKey)` cursor (when one is given). -/
def queryMatched (tbl : List (String × Record))
    (filter : Option (List (Record → Bool)))
    (nextPartitionKey nextRowKey : Option String) : List Record :=
  let entities := tbl.map (·.2)
  let entities :=
    match filter with
    | some conds => entities.filter fun e => conds.all fun cond => cond e
    | none => entities
  if optTruthy nextRowKey || optTruthy nextPartitionKey then
    entities.dropWhile fun e =>
      ¬ (getStrOpt e "PartitionKey" = nextPartitionKey ∧
         getStrOpt e "RowKey" = nextRowKey)
  else entities

/-- `InMemoryWrapper.prototype.queryEntities`.  `top` is the page-size
option, `none` when absent or `NaN` — both fall to the falsy branch of
`if (options.top)`, exactly like `NaN` in the source. -/
def queryEntities (t : String) (filter : Option (List (Record → Bool)))
    (top : Option Nat) (nextPartitionKey nextRowKey : Option String)
    (st : Store) : Except BackendError QueryResult :=
  match assocGet st.tables t with
  | none => .error ⟨404, "ResourceNotFound"⟩
  | some tbl =>
    let entities := queryMatched tbl filter nextPartitionKey nextRowKey
    -- if (options.top) { … nextPartitionKey = entities[options.top] … }
    -- (`entities[options.top]` exists exactly when entities.length > top)
    match top with
    | some topN =>
      if topN = 0 then
        .ok { entities := entities, nextPartitionKey := none, nextRowKey := none }
      else
        match entities.get? topN with
        | some nxt =>
          .ok { entities := entities.take topN
                nextPartitionKey := getStrOpt nxt "PartitionKey"
                nextRowKey := getStrOpt nxt "RowKey" }
        | none =>
          .ok { entities := entities.take topN
                nextPartitionKey := none, nextRowKey := none }
    | none =>
      .ok { entities := entities, nextPartitionKey := none, nextRowKey := none }

/-! ## `Entity.create` (lib/entity.js)

`create` serializes the property bag and either inserts unconditionally or,
with `overwriteIfExists`, replaces unconditionally via `updateEntity` with
`{mode: 'replace', eTag: null}`.  The schema's `__serialize` (key
computation, per-type serialization, optional signature) enters as a
parameter; `rethrowDebug` only logs and rethrows, so errors pass through
unchanged.  The resolved value is the inserted record with its `odata.etag`,
which the `Entity` constructor wraps. -/

def create {P : Type} (hash : Record → String) (serialize : P → Record)
    (t : String) (properties : P) (overwriteIfExists : Bool) (st : Store) :
    Except BackendError (Record × Store) :=
  let entity := serialize properties
  let inserted :=
    if ¬ overwriteIfExists then
      insertEntity hash t entity st
    else
      updateEntity hash t entity "replace" none st
  match inserted with
  | .error err => .error err
  | .ok (etag, st') => .ok (assocSet entity "odata.etag" (.str etag), st')

/-! ## Continuation tokens (lib/entity.js)

`encodeContinuationToken` URL-encodes the two cursor keys with
`encodeURIComponent`, additionally rewriting the (unreserved) `~` to `%7e`,
and joins them with a literal `~`; `decodeContinuationToken` splits at `~`
and applies `decodeURIComponent`.  The two JavaScript builtins are modelled
here: `encodeURIComponent` percent-encodes the UTF-8 bytes of every
character outside `[A-Za-z0-9-_.!~*'()]` (uppercase hex) and
`decodeURIComponent` inverts that, rejecting malformed percent escapes. -/

/-- `lo ≤ c ≤ hi` on code points, for the regex character classes. -/
def charBetween (lo hi : Nat) (c : Char) : Bool :=
  lo ≤ c.toNat && c.toNat ≤ hi

/-- The characters `encodeURIComponent` leaves unescaped:
`[A-Za-z0-9-_.!~*'()]`. -/
def uriUnreserved (c : Char) : Bool :=
  charBetween 65 90 c || charBetween 97 122 c || charBetween 48 57 c ||
  c = '-' || c = '_' || c = '.' || c = '!' || c = '~' || c = '*' ||
  c = '\'' || c = '(' || c = ')'

/-- UTF-8 bytes of a Unicode scalar value. -/
def utf8Bytes (c : Char) : List Nat :=
  let v := c.toNat
  if v < 0x80 then [v]
  else if v < 0x800 then [0xC0 + v / 64, 0x80 + v % 64]
  else if v < 0x10000 then
    [0xE0 + v / 4096, 0x80 + v / 64 % 64, 0x80 + v % 64]
  else
    [0xF0 + v / 262144, 0x80 + v / 4096 % 64, 0x80 + v / 64 % 64, 0x80 + v % 64]

/-- Uppercase hexadecimal digit, as emitted by `encodeURIComponent`. -/
def hexDigitU (n : Nat) : Char :=
  if n < 10 then Char.ofNat ('0'.toNat + n) else Char.ofNat ('A'.toNat + n - 10)

/-- `%XX` escape of one byte. -/
def percentByte (b : Nat) : List Char :=
  ['%', hexDigitU (b / 16), hexDigitU (b % 16)]

/-- `encodeURIComponent`, one character at a time. -/
def encodeURIChar (c : Char) : List Char :=
  if uriUnreserved c then [c] else (utf8Bytes c).flatMap percentByte

/-- Model of the JavaScript builtin `encodeURIComponent`. -/
def encodeURIComponent (s : String) : String :=
  ⟨s.data.flatMap encodeURIChar⟩

/-- `.replace(/~/g, '%7e')` as applied by `encodeContinuationToken`. -/
def replaceTildeChar (c : Char) : List Char :=
  if c = '~' then ['%', '7', 'e'] else [c]

/-- `.replace(/~/g, '%7e')`. -/
def replaceTildes (s : String) : String :=
  ⟨s.data.flatMap replaceTildeChar⟩

/-- Value of a hexadecimal digit character, either case (as accepted by
`decodeURIComponent`). -/
def hexVal (c : Char) : Option Nat :=
  if charBetween 48 57 c then some (c.toNat - 48)
  else if charBetween 97 102 c then some (c.toNat - 87)
  else if charBetween 65 70 c then some (c.toNat - 55)
  else none

/-- One decoded unit of `decodeURIComponent`'s first pass: a literal
character, or the byte contributed by one `%XX` escape. -/
inductive UriTok where
  | lit (c : Char)
  | byte (b : Nat)

/-- First pass of `decodeURIComponent`: literal characters pass through,
each `%XX` escape becomes one byte; a dangling `%` or a bad hexadecimal
digit is an error (a `URIError` in JavaScript). -/
def uriTokens : List Char → Option (List UriTok)
  | [] => some []
  | '%' :: h1 :: h2 :: rest =>
    match hexVal h1, hexVal h2 with
    | some a, some b => (uriTokens rest).map fun ts => UriTok.byte (a * 16 + b) :: ts
    | _, _ => none
  | '%' :: _ => none
  | c :: rest => (uriTokens rest).map fun ts => UriTok.lit c :: ts

/-- A UTF-8 continuation byte: `10xxxxxx`. -/
def utf8ContOk (b : Nat) : Bool :=
  0x80 ≤ b && b < 0xC0

mutual

/-- Second pass of `decodeURIComponent`: each escape-byte run must form
whole UTF-8 sequences encoding valid scalar values; anything else (stray
continuation byte, truncated sequence, lone surrogate) is an error. -/
def utf8Decode : List UriTok → Option (List Char)
  | [] => some []
  | UriTok.lit c :: rest => (utf8Decode rest).map fun cs => c :: cs
  | UriTok.byte b0 :: rest =>
    if b0 < 0x80 then (utf8Decode rest).map fun cs => Char.ofNat b0 :: cs
    else if b0 < 0xC0 then none
    else if b0 < 0xE0 then utf8Cont1 b0 rest
    else if b0 < 0xF0 then utf8Cont2 b0 rest
    else if b0 < 0xF8 then utf8Cont3 b0 rest
    else none

/-- One continuation byte after a two-byte leader. -/
def utf8Cont1 (b0 : Nat) : List UriTok → Option (List Char)
  | UriTok.byte b1 :: rest =>
    if utf8ContOk b1 then
      let v := (b0 - 0xC0) * 64 + (b1 - 0x80)
      if Nat.isValidChar v then (utf8Decode rest).map fun cs => Char.ofNat v :: cs
      else none
    else none
  | _ => none

/-- Two continuation bytes after a three-byte leader. -/
def utf8Cont2 (b0 : Nat) : List UriTok → Option (List Char)
  | UriTok.byte b1 :: UriTok.byte b2 :: rest =>
    if utf8ContOk b1 && utf8ContOk b2 then
      let v := (b0 - 0xE0) * 4096 + (b1 - 0x80) * 64 + (b2 - 0x80)
      if Nat.isValidChar v then (utf8Decode rest).map fun cs => Char.ofNat v :: cs
      else none
    else none
  | _ => none

/-- Three continuation bytes after a four-byte leader. -/
def utf8Cont3 (b0 : Nat) : List UriTok → Option (List Char)
  | UriTok.byte b1 :: UriTok.byte b2 :: UriTok.byte b3 :: rest =>
    if utf8ContOk b1 && utf8ContOk b2 && utf8ContOk b3 then
      let v := (b0 - 0xF0) * 262144 + (b1 - 0x80) * 4096 +
        (b2 - 0x80) * 64 + (b3 - 0x80)
      if Nat.isValidChar v then (utf8Decode rest).map fun cs => Char.ofNat v :: cs
      else none
    else none
  | _ => none

end

/-- Model of the JavaScript builtin `decodeURIComponent` on a character
list: unescape `%XX` triples, then assemble escape bytes into UTF-8
sequences. -/
def decodeURIChars (cs : List Char) : Option (List Char) :=
  (uriTokens cs).bind utf8Decode

/-- Model of the JavaScript builtin `decodeURIComponent`. -/
def decodeURIComponent (s : String) : Option String :=
  (decodeURIChars s.data).map fun cs => ⟨cs⟩

/-- `token.split('~')` — JavaScript `String.prototype.split` with a
one-character separator (empty pieces preserved). -/
def splitOnTilde : List Char → List (List Char)
  | [] => [[]]
  | c :: rest =>
    match splitOnTilde rest with
    | [] => [[]]
    | g :: gs => if c = '~' then [] :: g :: gs else (c :: g) :: gs

/-- `Entity.continuationTokenPattern`:
`/^[a-zA-Z0-9_.!*'()%-]*~[a-zA-Z0-9_.!*'()%-]*$/`. -/
def tokenPatternChar (c : Char) : Bool :=
  charBetween 97 122 c || charBetween 65 90 c || charBetween 48 57 c ||
  c = '_' || c = '.' || c = '!' || c = '*' || c = '\'' || c = '(' ||
  c = ')' || c = '%' || c = '-'

/-- Whether a string matches `Entity.continuationTokenPattern`. -/
def matchesTokenPattern (s : String) : Bool :=
  match splitOnTilde s.data with
  | [a, b] => a.all tokenPatternChar && b.all tokenPatternChar
  | _ => false

/-- `encodeContinuationToken(result)`: `null` when neither cursor key is
truthy, otherwise the tilde-joined URL-encoded pair. -/
def encodeContinuationToken (result : QueryResult) : Option String :=
  if ¬ optTruthy result.nextPartitionKey ∧ ¬ optTruthy result.nextRowKey then
    none
  else
    some (replaceTildes (encodeURIComponent (result.nextPartitionKey.getD ""))
      ++ "~"
      ++ replaceTildes (encodeURIComponent (result.nextRowKey.getD "")))

/-- `decodeContinuationToken(token)`: splits at `~` (asserting exactly one
separator), then URL-decodes both halves.  Errors model the `assert` /
`URIError` throws. -/
def decodeContinuationToken (token : Option String) :
    Except String (Option String × Option String) :=
  match token with
  | none => .ok (none, none)
  | some tok =>
    match splitOnTilde tok.data with
    | [a, b] =>
      match decodeURIChars a, decodeURIChars b with
      | some pa, some pb => .ok (some ⟨pa⟩, some ⟨pb⟩)
      | _, _ => .error "URIError: malformed URI sequence"
    | _ => .error "expected an encoded continuation token with a single tilde as separator"

/-! ## `Entity.scan`, the no-handler page fetch (lib/entity.js)

After compiling the conditions into a backend filter, `scan` fetches a page
with `top: Math.min(options.limit, 1000)` and resolves with the wrapped
entries plus the encoded continuation token.  `options.limit` defaults to
`undefined`, and `Math.min(undefined, 1000)` is `NaN`; both `NaN` and an
absent `top` take the falsy branch of `if (options.top)` in the in-memory
backend, so they are modelled together as `none`. -/

def scanTop : Option Nat → Option Nat
  | some l => some (min l 1000)
  | none => none

/-- Result of a no-handler `scan`/`query` page. -/
structure ScanPage (α : Type) where
  entries : List α
  continuation : Option String

/-- `fetchResults(continuation)` from `Entity.scan`, for an already-compiled
filter: decode the continuation, query one page, wrap each entity in the
entity class (`wrap`), re-encode the cursor. -/
def scanFetchResults {α : Type} (wrap : Record → α) (t : String)
    (filter : Option (List (Record → Bool))) (limit : Option Nat)
    (continuation : Option String) (st : Store) :
    Except (BackendError ⊕ String) (ScanPage α) :=
  match decodeContinuationToken continuation with
  | .error e => .error (.inr e)
  | .ok (nextPartitionKey, nextRowKey) =>
    match queryEntities t filter (scanTop limit) nextPartitionKey nextRowKey st with
    | .error e => .error (.inl e)
    | .ok data =>
      .ok { entries := data.entities.map wrap
            continuation := encodeContinuationToken data }

/-! ## `Entity.prototype.modify` (lib/entity.js)

The optimistic-concurrency loop.  An entity instance owns a deserialized
property bag, the two physical keys captured at construction, the stored
schema version and the last-observed ETag.  Property values are an abstract
type `V`; each configured property type contributes `equal`, `clone` and
`serialize` (the columns it writes), exactly the capabilities `modify`
uses.  The backend is nondeterministic, so each call to
`updateEntity` consumes one step of an explicit response trace; a step also
carries the state `reload` would install if that attempt ends in a
conflict.  A JavaScript bag is modelled as a total function from names
(absent keys map to `default`); the modifier is a function from the bag to
the mutated bag. -/

/-- The capabilities of one configured property Type that `modify` uses:
`equal(a, b)`, `clone(value)` and `serialize(target, value)` (modelled as
the list of columns the type writes for a value). -/
structure PType (V : Type) where
  equal : V → V → Bool
  clone : V → V
  serialize : V → List (String × CellVal)

/-- The parts of a configured-and-set-up entity class that
`Entity.prototype.modify` reads. -/
structure EntityClass (V : Type) where
  version : Nat                                 -- `__version`
  mapping : List (String × PType V)             -- `__mapping`
  serializeAll : (String → V) → Record          -- `__serialize`
  pkExact : (String → V) → String               -- `__partitionKey.exact`
  rkExact : (String → V) → String               -- `__rowKey.exact`
  sign : Option ((String → V) → String)         -- `__sign` (base64 digest)
  table : String                                -- `__table`

/-- An entity instance: `_properties`, `_partitionKey`, `_rowKey`,
`_version`, `_etag`. -/
structure Inst (V : Type) where
  properties : String → V
  partitionKey : String
  rowKey : String
  version : Nat
  etag : String

/-- `__mapping[name]`. -/
def lookupPType {V : Type} (m : List (String × PType V)) (name : String) :
    Option (PType V) :=
  (m.find? (fun p => p.1 = name)).map (·.2)

/-- The baseline snapshot taken at the start of each modify attempt:
`properties[p] = type.clone(self._properties[p])` for every mapped
property (a fresh object, so unmapped names are absent). -/
def cloneBag {V : Type} [Inhabited V] (m : List (String × PType V))
    (props : String → V) : String → V := fun name =>
  match lookupPType m name with
  | some ty => ty.clone (props name)
  | none => default

/-- Whether any mapped property of `newProps` differs from its baseline
under its type's `equal` (the `isChanged` flag). -/
def changedBag {V : Type} (m : List (String × PType V))
    (baseline newProps : String → V) : Bool :=
  m.any fun p => ¬ (p.2.equal (baseline p.1) (newProps p.1))

/-- The merge-mode `entityChanges`: serialize each changed property, in
mapping order. -/
def mergeChanges {V : Type} (m : List (String × PType V))
    (baseline newProps : String → V) : Record :=
  m.foldl
    (fun acc p =>
      if p.2.equal (baseline p.1) (newProps p.1) then acc
      else (p.2.serialize (newProps p.1)).foldl
        (fun a q => assocSet a q.1 q.2) acc)
    []

/-- One backend answer to an `updateEntity` call inside `modify`. -/
inductive UpdResp where
  | ok (etag : String)
  | err (code : String)

/-- The state `reload()` installs (`_properties`, `_version`, `_etag`) when
an attempt ends in a conflict and `modify` re-fetches the entity. -/
structure ReloadData (V : Type) where
  properties : String → V
  version : Nat
  etag : String

/-- One step of the backend trace: the `updateEntity` response for this
attempt, and the reload result used if that response was a conflict. -/
structure Step (V : Type) where
  upd : UpdResp
  reload : ReloadData V

/-- An error raised out of `modify`. -/
inductive ModifyErr (V : Type) where
  | keyModified (which : String)
      -- an `assert` that the modifier did not change a key fired
  | backend (code : String)
      -- a backend rejection other than the conflict class, rethrown
  | congestion (originalEntity modifiedEntity : String → V)
      (modifiedEntityAttempts : List (String → V)) (table : String)
      -- code 'EntityWriteCongestionError' with its forensic payload
  | oracleExhausted
      -- model artifact: the response trace ended before the loop did

/-- The `err.code` of a modify error. -/
def ModifyErr.code {V : Type} : ModifyErr V → String
  | .keyModified _ => "ERR_ASSERTION"
  | .backend c => c
  | .congestion _ _ _ _ => "EntityWriteCongestionError"
  | .oracleExhausted => "OracleExhausted"

/-- The observable parameters of one `updateEntity` call issued by
`modify`. -/
structure UpdateCall where
  changes : Record
  mode : String
  eTag : String

/-- Result of a `modify` call: the final state of the instance, the error
it rejected with (if any), and the `updateEntity` calls it issued. -/
structure ModifyOut (V : Type) where
  inst : Inst V
  error : Option (ModifyErr V)
  updateCalls : List UpdateCall

/-- `MAX_MODIFY_ATTEMPTS` from lib/entity.js. -/
def MAX_MODIFY_ATTEMPTS : Nat := 10

/-- Outcome of the part of a modify attempt that runs before any backend
call: the no-op short circuit, the fatal key check, or a request ready to
send (with the restored state the catch handler would install). -/
inductive PrepOut (V : Type) where
  | noop (inst : Inst V)
      -- nothing changed: return the instance, no write
  | keyErr (restored : Inst V) (which : String)
      -- a key assert fired; the catch restored the baseline and rethrows
  | send (self1 restored : Inst V) (changes : Record) (mode : String)
      (eTag : String) (newProps baseline : String → V)
      -- updateEntity(changes, {mode, eTag}) is about to be issued

/-- One modify attempt up to (but not including) the `updateEntity` call:
snapshot a baseline (per-type clones plus `_etag`/`_version`), run the
modifier against the live bag, take the no-op short circuit when the
version matches and nothing changed, serialize the changes (merge mode) or
everything (replace mode on a schema-version upgrade), and verify that the
modifier did not move the partition or row key. -/
def attemptPrep {V : Type} [Inhabited V] (C : EntityClass V)
    (modifier : (String → V) → (String → V)) (self : Inst V) : PrepOut V :=
  -- clone self._properties so we can diff and restore
  let properties := cloneBag C.mapping self.properties
  let eTag := self.etag
  let version := self.version
  -- invoke modifier (it mutates the live bag)
  let newProps := modifier self.properties
  let self1 : Inst V := { self with properties := newProps }
  if version = C.version ∧ ¬ changedBag C.mapping properties newProps then
    -- return modify trivially, as no changes were made by the modifier
    .noop self1
  else
    -- serialize changed properties (merge) or everything (schema upgrade)
    let entityChanges :=
      if version = C.version then
        let ec := mergeChanges C.mapping properties newProps
        match C.sign with
        | some sign =>
          assocSet (assocSet ec "Signature@odata.type" (.str "Edm.Binary"))
            "Signature" (.str (sign newProps))
        | none => ec
      else
        C.serializeAll newProps
    let mode := if version = C.version then "merge" else "replace"
    let selfRestored : Inst V :=
      { self1 with properties := properties, etag := eTag, version := version }
    -- check for key modifications (assertion errors have no 'code', so the
    -- catch handler restores the baseline and rethrows them)
    if C.pkExact newProps ≠ self.partitionKey then
      .keyErr selfRestored "PartitionKey"
    else if C.rkExact newProps ≠ self.rowKey then
      .keyErr selfRestored "RowKey"
    else
      let entityChanges :=
        assocSet (assocSet entityChanges "PartitionKey" (.str self.partitionKey))
          "RowKey" (.str self.rowKey)
      .send self1 selfRestored entityChanges mode eTag newProps properties

/-- The state `reload()` leaves the instance in when an attempt ends in a
conflict (reload overwrites `_properties`, `_version`, `_etag`; the
captured keys never change). -/
def afterReload {V : Type} (self : Inst V) (r : ReloadData V) : Inst V :=
  { self with
    properties := r.properties
    version := r.version
    etag := r.etag }

/-- `attemptModify` from `Entity.prototype.modify`: run the pre-update part
of the attempt, issue the conditional update (consuming one trace step),
and on a conflict restore the baseline, reload and recurse (bounded by
`attemptsLeft`). -/
def attemptModify {V : Type} [Inhabited V] (C : EntityClass V)
    (modifier : (String → V) → (String → V)) :
    Inst V → Nat → List (String → V) → List (Step V) → List UpdateCall →
      ModifyOut V
  | self, _, _, [], calls =>
    (match attemptPrep C modifier self with
     | .noop inst => { inst := inst, error := none, updateCalls := calls }
     | .keyErr restored w =>
       { inst := restored, error := some (.keyModified w), updateCalls := calls }
     | .send self1 _ _ _ _ _ _ =>
       -- model artifact: the oracle ran out of updateEntity responses
       { inst := self1, error := some .oracleExhausted, updateCalls := calls })
  | self, attemptsLeft, modifiedEntityAttempts, step :: trace', calls =>
    (match attemptPrep C modifier self with
     | .noop inst => { inst := inst, error := none, updateCalls := calls }
     | .keyErr restored w =>
       { inst := restored, error := some (.keyModified w), updateCalls := calls }
     | .send self1 restored changes mode eTag newProps baseline =>
       let calls' := calls ++ [⟨changes, mode, eTag⟩]
       match step.upd with
       | .ok newTag =>
         { inst := { self1 with etag := newTag }, error := none
           updateCalls := calls' }
       | .err code =>
         let modifiedEntity := newProps
         -- restore internal state, rethrow errors not caused by optimistic
         -- concurrency, raise congestion when the attempts are exhausted,
         -- otherwise reload and try again
         if code ≠ "UpdateConditionNotSatisfied" then
           { inst := restored, error := some (.backend code)
             updateCalls := calls' }
         else if attemptsLeft - 1 = 0 then
           { inst := restored
             error := some (.congestion baseline modifiedEntity
               modifiedEntityAttempts C.table)
             updateCalls := calls' }
         else
           attemptModify C modifier (afterReload restored step.reload)
             (attemptsLeft - 1) (modifiedEntityAttempts ++ [modifiedEntity])
             trace' calls')

/-- `Entity.prototype.modify(modifier)` against a given backend trace. -/
def modify {V : Type} [Inhabited V] (C : EntityClass V)
    (modifier : (String → V) → (String → V)) (self : Inst V)
    (trace : List (Step V)) : ModifyOut V :=
  attemptModify C modifier self MAX_MODIFY_ATTEMPTS [] trace []

/-! ## Property types (lib/entitytypes.js)

Each Type writes one cell of the serialized entity (`target[property] = …`)
and reads it back.  The cell payloads differ per type: a JavaScript string,
a number (modelled as `Int`), a `Date` (modelled by its epoch value), or a
`Buffer` (either raw bytes, or the UTF-8 encoding of a text — `Buffer`'s
UTF-8 encode/decode round-trip is the identity on strings, so a text buffer
is carried as its string). -/

/-- The value stored in one serialized cell by a property type. -/
inductive TCell where
  | str (s : String)
  | int (n : Int)
  | date (time : Int)
  | buf (text : String)
  | bytes (bs : List Nat)
deriving DecidableEq

/-- `[\da-f]` with the `/i` flag: a hexadecimal digit of either case. -/
def isHexDigitCI (c : Char) : Bool :=
  charBetween 48 57 c || charBetween 97 102 c || charBetween 65 70 c

/-- `_uuidExpr`: `/^[\da-f]{8}-[\da-f]{4}-[\da-f]{4}-[\da-f]{4}-[\da-f]{12}$/i`. -/
def isUuid (s : String) : Bool :=
  s.data.length = 36 &&
    (s.data.enum.all fun p =>
      if p.1 = 8 ∨ p.1 = 13 ∨ p.1 = 18 ∨ p.1 = 23 then p.2 = '-'
      else isHexDigitCI p.2)

/-- `[a-z0-9_-]` with the `/i` flag — exactly the base64url alphabet. -/
def isSlugChar (c : Char) : Bool :=
  charBetween 97 122 c || charBetween 65 90 c || charBetween 48 57 c ||
  c = '_' || c = '-'

/-- `_slugIdExpr`: `/^[a-z0-9_-]{22}$/i`. -/
def isSlugId (s : String) : Bool :=
  s.data.length = 22 && s.data.all isSlugChar

/-! ### The `slugid` library

`slugid.decode(slug)` base64-decodes the slug (after mapping `-_` back to
`+/` and appending `==`) into 16 bytes and formats them as a lowercase
hyphenated UUID string; `slugid.encode(uuid)` parses the hex digits back
into bytes and base64url-encodes them, dropping the `==` padding.  Node's
base64 decoder silently drops the 4 low bits of the 22nd slug character
(22 × 6 = 132 bits feed a 128-bit value). -/

/-- Value of one base64 character after the `-+`/`_/` substitution. -/
def b64Val (c : Char) : Nat :=
  if 65 ≤ c.toNat ∧ c.toNat ≤ 90 then c.toNat - 65
  else if 97 ≤ c.toNat ∧ c.toNat ≤ 122 then c.toNat - 97 + 26
  else if 48 ≤ c.toNat ∧ c.toNat ≤ 57 then c.toNat - 48 + 52
  else if c = '-' then 62
  else if c = '_' then 63
  else 0

/-- The base64url character of a 6-bit value. -/
def b64Char (v : Nat) : Char :=
  if v < 26 then Char.ofNat (65 + v)
  else if v < 52 then Char.ofNat (97 + v - 26)
  else if v < 62 then Char.ofNat (48 + v - 52)
  else if v = 62 then '-'
  else '_'

/-- Base64 decoding by groups of four characters; a trailing two-character
group (the slug's 21st/22nd characters, padded with `==`) yields a single
byte, dropping the low four bits of the final character, as Node does. -/
def b64DecodeGroups : List Char → List Nat
  | c1 :: c2 :: c3 :: c4 :: rest =>
    let v1 := b64Val c1
    let v2 := b64Val c2
    let v3 := b64Val c3
    let v4 := b64Val c4
    (v1 * 4 + v2 / 16) :: ((v2 % 16) * 16 + v3 / 4) :: ((v3 % 4) * 64 + v4) ::
      b64DecodeGroups rest
  | [c1, c2] =>
    [b64Val c1 * 4 + b64Val c2 / 16]
  | _ => []

/-- Base64url encoding of a byte list, without padding: groups of three
bytes yield four characters; a final single byte yields two. -/
def b64EncodeBytes : List Nat → List Char
  | b1 :: b2 :: b3 :: rest =>
    b64Char (b1 / 4) :: b64Char ((b1 % 4) * 16 + b2 / 16) ::
      b64Char ((b2 % 16) * 4 + b3 / 64) :: b64Char (b3 % 64) ::
      b64EncodeBytes rest
  | [b1, b2] =>
    [b64Char (b1 / 4), b64Char ((b1 % 4) * 16 + b2 / 16),
     b64Char ((b2 % 16) * 4)]
  | [b1] =>
    [b64Char (b1 / 4), b64Char ((b1 % 4) * 16)]
  | [] => []

/-- Lowercase hexadecimal digit. -/
def hexDigitL (n : Nat) : Char :=
  if n < 10 then Char.ofNat ('0'.toNat + n) else Char.ofNat ('a'.toNat + n - 10)

/-- Two lowercase hex characters of a byte. -/
def byteHex (b : Nat) : List Char :=
  [hexDigitL (b / 16), hexDigitL (b % 16)]

/-- Parse pairs of hex characters into bytes. -/
def hexPairBytes : List Char → List Nat
  | a :: b :: rest =>
    ((hexVal a).getD 0 * 16 + (hexVal b).getD 0) :: hexPairBytes rest
  | _ => []

/-- Format 16 bytes as a lowercase hyphenated UUID string (8-4-4-4-12). -/
def uuidFromBytes (bs : List Nat) : String :=
  let h := bs.flatMap byteHex
  ⟨h.take 8 ++ ['-'] ++ (h.drop 8).take 4 ++ ['-'] ++ (h.drop 12).take 4 ++
    ['-'] ++ (h.drop 16).take 4 ++ ['-'] ++ h.drop 20⟩

/-- `slugid.decode(slug)`. -/
def slugidDecode (slug : String) : String :=
  uuidFromBytes (b64DecodeGroups slug.data)

/-- `slugid.encode(uuid)`. -/
def slugidEncode (uuid : String) : String :=
  ⟨b64EncodeBytes (hexPairBytes (uuid.data.filter fun c => c ≠ '-'))⟩

/-! ### The concrete property types of lib/entitytypes.js

For each Type: the domain check performed by `validate`, `serialize` as the
cell payload written for the property, `deserialize` reading the cell back
(`none` models a validation/type failure), and `equal`. -/

/-- `StringType`: a `ValueType` holding a JavaScript string. -/
def StringType.serialize (v : String) : TCell := .str v

/-- `ValueType.deserialize` with `StringType.validate`. -/
def StringType.deserialize : TCell → Option String
  | .str s => some s
  | _ => none

/-- `ValueType.equal` is `===`. -/
def StringType.equal (a b : String) : Bool := a = b

/-- `NumberType`: a `ValueType` holding a JavaScript number (as `Int`). -/
def NumberType.serialize (v : Int) : TCell := .int v

/-- `ValueType.deserialize` with `NumberType.validate`. -/
def NumberType.deserialize : TCell → Option Int
  | .int n => some n
  | _ => none

/-- `ValueType.equal` is `===`. -/
def NumberType.equal (a b : Int) : Bool := a = b

/-- `DateType.serialize` stores `new Date(value)` — a fresh `Date` with the
same epoch value. -/
def DateType.serialize (v : Int) : TCell := .date v

/-- `DateType.deserialize` returns the stored `Date` after validating it. -/
def DateType.deserialize : TCell → Option Int
  | .date t => some t
  | _ => none

/-- `DateType.equal` compares `getTime()`. -/
def DateType.equal (a b : Int) : Bool := a = b

/-- `UUIDType` (a `ValueType`): the string is stored as-is. -/
def UUIDType.serialize (v : String) : TCell := .str v

/-- `ValueType.deserialize` with `UUIDType.validate`. -/
def UUIDType.deserialize : TCell → Option String
  | .str s => if isUuid s then some s else none
  | _ => none

/-- `UUIDType.equal` compares lowercased. -/
def UUIDType.equal (a b : String) : Bool := a.toLower = b.toLower

/-- `SlugIdType.serialize` stores `slugid.decode(value)` (a UUID string). -/
def SlugIdType.serialize (v : String) : TCell := .str (slugidDecode v)

/-- `SlugIdType.deserialize` returns `slugid.encode(source[property])`. -/
def SlugIdType.deserialize : TCell → Option String
  | .str u => some (slugidEncode u)
  | _ => none

/-- `ValueType.equal` is `===`. -/
def SlugIdType.equal (a b : String) : Bool := a = b

/-- `BlobType.serialize` stores the buffer. -/
def BlobType.serialize (v : List Nat) : TCell := .bytes v

/-- `BlobType.deserialize` returns the stored buffer. -/
def BlobType.deserialize : TCell → Option (List Nat)
  | .bytes bs => some bs
  | _ => none

/-- `BlobType.equal`: reference shortcut, then length, then bytewise. -/
def BlobType.equal (a b : List Nat) : Bool :=
  a.length = b.length && (a.zip b).all fun p => p.1 = p.2

/-! ### The JSON type

`JSONType.serialize` stores `Buffer(JSON.stringify(value), 'utf8')` and
`JSONType.deserialize` applies `JSON.parse`.  A JSON-serializable JavaScript
value is modelled by `Jv` (numbers as `Int`, per the embedding's number
model); `JSON.stringify` and `JSON.parse` are modelled by a renderer
emitting exactly V8's output (no whitespace, the standard escape set,
`\u00xx` with lowercase hex for other control characters) and a
recursive-descent parser for the JSON grammar (integral numbers only, the
reach of the `Int` number model; lone-surrogate escapes are out of the
model's string domain). -/

/-- A JSON-serializable JavaScript value. -/
inductive Jv where
  | null
  | bool (b : Bool)
  | num (n : Int)
  | str (s : String)
  | arr (elems : List Jv)
  | obj (fields : List (String × Jv))

/-- One character of a JSON string literal, escaped as `JSON.stringify`
does: `"` and `\` and the five shorthand escapes, `\u00xx` for the
remaining control characters, everything else literal. -/
def escapeJsonChar (c : Char) : List Char :=
  if c = '"' then ['\\', '"']
  else if c = '\\' then ['\\', '\\']
  else if c.toNat = 8 then ['\\', 'b']
  else if c = '\t' then ['\\', 't']
  else if c = '\n' then ['\\', 'n']
  else if c.toNat = 12 then ['\\', 'f']
  else if c = '\r' then ['\\', 'r']
  else if c.toNat < 32 then
    ['\\', 'u', '0', '0', hexDigitL (c.toNat / 16), hexDigitL (c.toNat % 16)]
  else [c]

/-- A JSON string literal: quote, escaped characters, quote. -/
def renderJStr (s : String) : List Char :=
  '"' :: (s.data.flatMap escapeJsonChar ++ ['"'])

/-- The decimal digit character of `n % 10`-style values. -/
def digitChar (n : Nat) : Char := Char.ofNat (48 + n)

/-- Decimal digit characters of a natural number, most significant first. -/
def natDigits (n : Nat) : List Char :=
  if n < 10 then [digitChar n]
  else natDigits (n / 10) ++ [digitChar (n % 10)]
termination_by n
decreasing_by omega

/-- Decimal rendering of an integer (JavaScript number formatting for
integral values). -/
def intChars (i : Int) : List Char :=
  (if i < 0 then ['-'] else []) ++ natDigits i.natAbs

mutual
/-- `JSON.stringify`, to a character list. -/
def jvRender : Jv → List Char
  | .null => ['n', 'u', 'l', 'l']
  | .num n => intChars n
  | .bool true => ['t', 'r', 'u', 'e']
  | .str s => renderJStr s
  | .bool false => ['f', 'a', 'l', 's', 'e']
  | .arr xs => '[' :: (renderJArr xs ++ [']'])
  | .obj fs => '\x7b' :: (renderJObj fs ++ ['\x7d'])

/-- Comma-separated rendering of array elements. -/
def renderJArr : List Jv → List Char
  | [] => []
  | [x] => jvRender x
  | x :: y :: xs => jvRender x ++ ',' :: renderJArr (y :: xs)

/-- Comma-separated rendering of object members (`"key":value`). -/
def renderJObj : List (String × Jv) → List Char
  | [] => []
  | [(k, v)] => renderJStr k ++ ':' :: jvRender v
  | (k, v) :: f :: fs =>
    renderJStr k ++ ':' :: jvRender v ++ ',' :: renderJObj (f :: fs)
end

/-- `JSON.stringify`. -/
def jsonStringify (v : Jv) : String := ⟨jvRender v⟩

/-- JSON insignificant whitespace. -/
def isJsonWs (c : Char) : Bool :=
  c = ' ' || c = '\t' || c = '\n' || c = '\r'

/-- Drop leading insignificant whitespace. -/
def skipJsonWs : List Char → List Char
  | c :: rest => if isJsonWs c then skipJsonWs rest else c :: rest
  | [] => []

/-- ASCII decimal digit. -/
def isDigitChar (c : Char) : Bool := charBetween 48 57 c

/-- Split a leading run of decimal digits from the input. -/
def spanDigits : List Char → List Char × List Char
  | c :: rest =>
    if isDigitChar c then
      let (ds, r) := spanDigits rest
      (c :: ds, r)
    else ([], c :: rest)
  | [] => ([], [])

/-- Numeric value of a digit run. -/
def digitsVal (ds : List Char) : Nat :=
  ds.foldl (fun acc c => acc * 10 + (c.toNat - 48)) 0

/-- Parse a JSON number.  The `Int` value model covers exactly the integral
numbers, so a fraction or exponent part makes the parse fail rather than
produce an unrepresentable double. -/
def parseJNum (cs : List Char) : Option (Int × List Char) :=
  let (neg, cs1) := match cs with
    | '-' :: r => (true, r)
    | _ => (false, cs)
  match spanDigits cs1 with
  | ([], _) => none
  | (ds, r) =>
    match r with
    | '.' :: _ => none
    | 'e' :: _ => none
    | 'E' :: _ => none
    | _ => some ((if neg then -1 else 1) * (digitsVal ds : Int), r)

/-- The single-character JSON escapes accepted by `JSON.parse`. -/
def unescapeJson : Char → Option Char
  | '"' => some '"'
  | '\\' => some '\\'
  | '/' => some '/'
  | 'b' => some (Char.ofNat 8)
  | 'f' => some (Char.ofNat 12)
  | 'n' => some '\n'
  | 'r' => some '\r'
  | 't' => some '\t'
  | _ => none

/-- Parse the body of a JSON string literal after the opening quote.
Unescaped control characters are rejected, as `JSON.parse` does; `\uXXXX`
escapes denoting surrogate halves fall outside the model's string domain. -/
def parseJStrAux (acc : List Char) : List Char → Option (List Char × List Char)
  | '"' :: rest => some (acc.reverse, rest)
  | '\\' :: 'u' :: a :: b :: c :: d :: rest =>
    (match hexVal a, hexVal b, hexVal c, hexVal d with
     | some va, some vb, some vc, some vd =>
       let v := ((va * 16 + vb) * 16 + vc) * 16 + vd
       if Nat.isValidChar v then parseJStrAux (Char.ofNat v :: acc) rest
       else none
     | _, _, _, _ => none)
  | '\\' :: e :: rest =>
    (match unescapeJson e with
     | some ch => parseJStrAux (ch :: acc) rest
     | none => none)
  | c :: rest => if c.toNat < 32 then none else parseJStrAux (c :: acc) rest
  | [] => none

/-- Parse a JSON string literal body, returning the string and the rest. -/
def parseJStr (cs : List Char) : Option (String × List Char) :=
  (parseJStrAux [] cs).map fun p => (⟨p.1⟩, p.2)

mutual
/-- `JSON.parse`'s value parser (fuel-indexed for totality). -/
def parseJVal (fuel : Nat) (cs : List Char) : Option (Jv × List Char) :=
  match fuel with
  | 0 => none
  | fuel + 1 =>
    match skipJsonWs cs with
    | 'n' :: 'u' :: 'l' :: 'l' :: r => some (.null, r)
    | 't' :: 'r' :: 'u' :: 'e' :: r => some (.bool true, r)
    | 'f' :: 'a' :: 'l' :: 's' :: 'e' :: r => some (.bool false, r)
    | '"' :: r => (parseJStr r).map fun p => (.str p.1, p.2)
    | '[' :: r =>
      (match skipJsonWs r with
       | ']' :: r' => some (.arr [], r')
       | r' =>
         match parseJItems fuel r' with
         | some (xs, r'') => some (.arr xs, r'')
         | none => none)
    | '\x7b' :: r =>
      (match skipJsonWs r with
       | '\x7d' :: r' => some (.obj [], r')
       | r' =>
         match parseJFields fuel r' with
         | some (fs, r'') => some (.obj fs, r'')
         | none => none)
    | c :: rest =>
      if c = '-' || isDigitChar c then
        (parseJNum (c :: rest)).map fun p => (.num p.1, p.2)
      else none
    | [] => none

/-- One-or-more comma-separated array elements, ending at `]`. -/
def parseJItems (fuel : Nat) (cs : List Char) :
    Option (List Jv × List Char) :=
  match fuel with
  | 0 => none
  | fuel + 1 =>
    match parseJVal fuel cs with
    | none => none
    | some (v, r) =>
      match skipJsonWs r with
      | ',' :: r' =>
        (match parseJItems fuel r' with
         | some (xs, r'') => some (v :: xs, r'')
         | none => none)
      | ']' :: r' => some ([v], r')
      | _ => none

/-- One-or-more comma-separated object members, ending at the closing
brace. -/
def parseJFields (fuel : Nat) (cs : List Char) :
    Option (List (String × Jv) × List Char) :=
  match fuel with
  | 0 => none
  | fuel + 1 =>
    match skipJsonWs cs with
    | '"' :: r =>
      (match parseJStr r with
       | none => none
       | some (k, r1) =>
         match skipJsonWs r1 with
         | ':' :: r2 =>
           (match parseJVal fuel r2 with
            | none => none
            | some (v, r3) =>
              match skipJsonWs r3 with
              | ',' :: r4 =>
                (match parseJFields fuel r4 with
                 | some (fs, r5) => some ((k, v) :: fs, r5)
                 | none => none)
              | '\x7d' :: r4 => some ([(k, v)], r4)
              | _ => none)
         | _ => none)
    | _ => none
end

/-- `JSON.parse`: parse a complete document, requiring full consumption. -/
def jsonParse (s : String) : Option Jv :=
  match parseJVal (s.data.length + 1) s.data with
  | some (v, rest) => if skipJsonWs rest = [] then some v else none
  | none => none

/-- A context in which a rendered JSON number ends: end of input, or a
character that neither extends the digit run nor starts a fraction or
exponent. -/
def jsonDelim : List Char → Bool
  | [] => true
  | c :: _ => !(isDigitChar c) && !(c = '.') && !(c = 'e') && !(c = 'E')

/-- The `[`-arm of `parseJVal`, as a named function. -/
def parseJArrBody (fuel : Nat) (r : List Char) : Option (Jv × List Char) :=
  match skipJsonWs r with
  | ']' :: r' => some (.arr [], r')
  | r' =>
    match parseJItems fuel r' with
    | some (xs, r'') => some (.arr xs, r'')
    | none => none

/-- The opening-brace arm of `parseJVal`, as a named function. -/
def parseJObjBody (fuel : Nat) (r : List Char) : Option (Jv × List Char) :=
  match skipJsonWs r with
  | '\x7d' :: r' => some (.obj [], r')
  | r' =>
    match parseJFields fuel r' with
    | some (fs, r'') => some (.obj fs, r'')
    | none => none

/-- `parseJItems` after one element parse: a comma and more elements, or
the closing `]`. -/
def parseJItemsNext (fuel : Nat) (v : Jv) (r : List Char) :
    Option (List Jv × List Char) :=
  match skipJsonWs r with
  | ',' :: r' =>
    (match parseJItems fuel r' with
     | some (xs, r'') => some (v :: xs, r'')
     | none => none)
  | ']' :: r' => some ([v], r')
  | _ => none

/-- `parseJFields` after one member parse: a comma and more members, or
the closing brace. -/
def parseJFieldsAfter (fuel : Nat) (k : String) (v : Jv) (r3 : List Char) :
    Option (List (String × Jv) × List Char) :=
  match skipJsonWs r3 with
  | ',' :: r4 =>
    (match parseJFields fuel r4 with
     | some (fs, r5) => some ((k, v) :: fs, r5)
     | none => none)
  | '\x7d' :: r4 => some ([(k, v)], r4)
  | _ => none

/-- `parseJFields` after a member key parse: the colon and the value. -/
def parseJFieldsResume (fuel : Nat) (k : String) (r1 : List Char) :
    Option (List (String × Jv) × List Char) :=
  match skipJsonWs r1 with
  | ':' :: r2 =>
    (match parseJVal fuel r2 with
     | none => none
     | some (v, r3) => parseJFieldsAfter fuel k v r3)
  | _ => none

/-- `JSONType.serialize` stores `Buffer(JSON.stringify(value), 'utf8')`. -/
def JSONType.serialize (v : Jv) : TCell := .buf (jsonStringify v)

/-- `JSONType.deserialize` applies `JSON.parse` to the stored buffer. -/
def JSONType.deserialize : TCell → Option Jv
  | .buf s => jsonParse s
  | _ => none

mutual
/-- Deep structural equality of JSON values. -/
def jvBeq : Jv → Jv → Bool
  | .null, .null => true
  | .bool a, .bool b => a = b
  | .num a, .num b => a = b
  | .str a, .str b => a = b
  | .arr xs, .arr ys => jvBeqList xs ys
  | .obj fs, .obj gs => jvBeqFields fs gs
  | _, _ => false

/-- Elementwise equality of JSON arrays. -/
def jvBeqList : List Jv → List Jv → Bool
  | [], [] => true
  | x :: xs, y :: ys => jvBeq x y && jvBeqList xs ys
  | _, _ => false

/-- Memberwise equality of JSON objects. -/
def jvBeqFields : List (String × Jv) → List (String × Jv) → Bool
  | [], [] => true
  | (k1, v1) :: fs, (k2, v2) :: gs => k1 = k2 && jvBeq v1 v2 && jvBeqFields fs gs
  | _, _ => false
end

/-- `JSONType.equal` is lodash `_.isEqual`: deep value equality.  (Lodash
additionally ignores object key order; the round-trip theorem compares a
value with a syntactically identical parse, where the two notions agree.) -/
def JSONType.equal (a b : Jv) : Bool := jvBeq a b

/-- The record `updateEntity` stores when its precondition passes: the
update itself (with its `odata.etag` stamped) in replace mode, or the
existing record overlaid with the update's columns (and a fresh
`odata.etag`) in merge mode. -/
def updApplied (hash : Record → String) (e existing : Record) (mode : String) :
    Record :=
  let e1 := assocSet e "odata.etag" (.str (entityEtag hash e))
  if mode = "replace" then e1
  else
    let merged := e1.foldl (fun acc p => assocSet acc p.1 p.2) existing
    assocSet merged "odata.etag" (.str (entityEtag hash merged))

/-- The store after a successful conditional update: the applied record
replaces the stored one at its key. -/
def updStore (hash : Record → String) (t : String) (e : Record) (mode : String)
    (st : Store) (tbl : List (String × Record)) (stored : Record) : Store :=
  { st with
    tables := assocSet st.tables t
      (assocSet tbl (makeKey (getStrD e "PartitionKey") (getStrD e "RowKey"))
        (updApplied hash e stored mode)) }

/-- A store with record `r` installed at `key` of table `t` (whose prior
contents were `tbl`). -/
def putRecord (st : Store) (t : String) (tbl : List (String × Record))
    (key : String) (r : Record) : Store :=
  { st with tables := assocSet st.tables t (assocSet tbl key r) }

/-- A record with its content-derived ETag stamped into `odata.etag`. -/
def stampEtag (hash : Record → String) (e : Record) : Record :=
  assocSet e "odata.etag" (.str (entityEtag hash e))

/-- A table of 1001 records (distinct row keys), used to exercise `scan`
without a `limit`. -/
def bigTable : List (String × Record) :=
  (List.range 1001).map fun i =>
    (toString i,
     [("PartitionKey", CellVal.str "p"), ("RowKey", CellVal.str (toString i))])

/-- A store holding `bigTable` under table name `"T"`. -/
def bigStore : Store := { tables := [("T", bigTable)], ts := 1 }

/-- The chain of attempt-start states of a `modify` call whose attempts all
end in conflicts: the initial instance, then each reload-applied state. -/
def attemptStates {V : Type} (self : Inst V) (rs : List (ReloadData V)) :
    List (Inst V) :=
  List.scanl afterReload self rs

/-! ### Concrete example schema used by the modify witnesses -/

/-- A one-property (`count : Number`) type for witnesses. -/
def witPType : PType Int :=
  { equal := fun a b => decide (a = b)
    clone := fun v => v
    serialize := fun v => [("count", CellVal.num v)] }

/-- A one-property entity class with constant keys. -/
def witClass : EntityClass Int :=
  { version := 1
    mapping := [("count", witPType)]
    serializeAll := fun props => [("count", CellVal.num (props "count"))]
    pkExact := fun _ => "p"
    rkExact := fun _ => "r"
    sign := none
    table := "tbl" }

/-- The same class with a partition key derived from `count`. -/
def witClassKeyed : EntityClass Int :=
  { witClass with pkExact := fun props => toString (props "count") }

/-- An instance of `witClass` holding `count = 0`. -/
def witSelf : Inst Int :=
  { properties := fun _ => 0
    partitionKey := "p"
    rowKey := "r"
    version := 1
    etag := "e" }

/-- The matching instance for `witClassKeyed` (captured key `"0"`). -/
def witSelfKeyed : Inst Int :=
  { witSelf with partitionKey := "0" }

/-- A modifier incrementing every property by one. -/
def witInc : (String → Int) → (String → Int) :=
  fun props => fun name => props name + 1

/-- A reload answer installing `count = 0` again with a fresh etag. -/
def witReload : ReloadData Int :=
  { properties := fun _ => 0, version := 1, etag := "e2" }

/-- A backend trace step answering `updateEntity` with the conflict class
and then serving the given reload. -/
def conflictStep {V : Type} (r : ReloadData V) : Step V :=
  { upd := .err "UpdateConditionNotSatisfied", reload := r }

/-- A modify attempt from state `s` reaches its `updateEntity` call: the
modifier really changes something (when the schema version matches, so the
no-op short circuit does not fire) and leaves both exact keys intact. -/
def attemptOk {V : Type} [Inhabited V] (C : EntityClass V)
    (modifier : (String → V) → (String → V)) (s : Inst V) : Prop :=
  (s.version = C.version →
    changedBag C.mapping (cloneBag C.mapping s.properties)
      (modifier s.properties) = true) ∧
  C.pkExact (modifier s.properties) = s.partitionKey ∧
  C.rkExact (modifier s.properties) = s.rowKey

/-- The per-error attempt index: a key assertion consumes no update call,
every other failing attempt consumes one. -/
def errCallAdj {V : Type} : ModifyErr V → Nat
  | .keyModified _ => 0
  | _ => 1

/-! ## Theorems -/

set_option maxHeartbeats 1600000 in
/-- **C5.** For every sequence of configure calls on an entity class: a
configure call succeeds only if its version is exactly the previously
configured version plus 1; a version-1 configure must supply partitionKey
and rowKey builders; a configure with version greater than 1 must supply a
migrate function and must not redeclare partitionKey or rowKey; violating
any of these fails the configuration step synchronously (the contrapositive
of the stated implications). -/
theorem configure_version_rules {Ty : Type} [DecidableEq Ty]
    (st : ClassState Ty) (o : ConfigOptions Ty) (st' : ClassState Ty)
    (h : configure st o = .ok st') :
    o.version = st.version + 1 ∧
    (o.version = 1 → o.partitionKey.isSome ∧ o.rowKey.isSome) ∧
    (1 < o.version → o.migrate ∧ o.partitionKey = none ∧ o.rowKey = none) := by
  rw [configure] at h
  split at h
  · cases h
  split at h
  · cases h
  split at h
  · cases h
  split at h
  · cases h
  split at h
  · cases h
  rename_i hver
  split at h
  case isTrue hv1 =>
    split at h
    · cases h
    · cases h
    · split at h
      · cases h
      · exact ⟨by omega, fun _ => by simp_all, fun hgt => by omega⟩
  case isFalse hv1 =>
    split at h
    · cases h
    rename_i hpk
    split at h
    · cases h
    rename_i hrk
    split at h
    · cases h
    split at h
    · cases h
    rename_i hmig
    refine ⟨by omega, fun h1 => absurd h1 hv1, fun _ => ⟨by simpa using hmig, ?_, ?_⟩⟩
    · exact Option.not_isSome_iff_eq_none.mp hpk
    · exact Option.not_isSome_iff_eq_none.mp hrk

theorem assocGet_nil {α : Type} (k : String) : assocGet ([] : List (String × α)) k = none := rfl

theorem assocGet_cons {α : Type} (p : String × α) (l : List (String × α)) (k : String) :
    assocGet (p :: l) k = if p.1 = k then some p.2 else assocGet l k := by
  by_cases h : p.1 = k <;> simp [assocGet, List.find?, h]

theorem assocGet_assocSet_self {α : Type} (l : List (String × α)) (k : String) (v : α) :
    assocGet (assocSet l k v) k = some v := by
  induction l with
  | nil => simp [assocSet, assocGet_cons]
  | cons p l ih =>
    by_cases h : p.1 = k
    · simp [assocSet, h, assocGet_cons]
    · simp [assocSet, h, assocGet_cons, ih]

theorem assocGet_assocSet_ne {α : Type} (l : List (String × α)) (k k' : String)
    (v : α) (h : k' ≠ k) :
    assocGet (assocSet l k v) k' = assocGet l k' := by
  induction l with
  | nil =>
    rw [show assocSet ([] : List (String × α)) k v = [(k, v)] from rfl]
    rw [assocGet_cons, if_neg (fun hh => h hh.symm)]
  | cons p l ih =>
    by_cases hp : p.1 = k
    · simp only [assocSet, if_pos hp]
      rw [assocGet_cons, assocGet_cons, if_neg (fun hh => h hh.symm),
        if_neg (fun hh : p.1 = k' => h (hh ▸ hp))]
    · simp only [assocSet, if_neg hp]
      rw [assocGet_cons, assocGet_cons, ih]

theorem filter_assocSet_dropped {α : Type} (P : String × α → Bool)
    (l : List (String × α)) (k : String) (v : α)
    (hP : ∀ w : α, P (k, w) = false) :
    (assocSet l k v).filter P = l.filter P := by
  induction l with
  | nil =>
    rw [show assocSet ([] : List (String × α)) k v = [(k, v)] from rfl]
    simp [hP]
  | cons p l ih =>
    by_cases hp : p.1 = k
    · have hpe : p = (k, p.2) := by rw [← hp]
      have hPp : P p = false := by rw [hpe]; exact hP p.2
      simp only [assocSet, if_pos hp]
      rw [List.filter_cons, List.filter_cons]
      simp [hP v, hPp]
    · simp only [assocSet, if_neg hp]
      rw [List.filter_cons, List.filter_cons, ih]

/-- Setting any `odata.*`-prefixed cell does not change the content-derived
ETag (the canonicalization drops those columns first). -/
theorem entityEtag_assocSet_odata (hash : Record → String) (e : Record)
    (k : String) (v : CellVal) (hk : odataPrefixed k = true) :
    entityEtag hash (assocSet e k v) = entityEtag hash e := by
  unfold entityEtag etagCanonical
  rw [filter_assocSet_dropped _ _ _ _ (by simp [hk])]

/-- Witness for C5: a concrete version-1 configuration (one `id` property
used by both keys) on a fresh class satisfies the stated conditions. -/
theorem configure_version_rules_witness :
    ({ version := 1, properties := [("id", Unit.unit)],
       partitionKey := some ["id"],
       rowKey := some ["id"] } : ConfigOptions Unit).version
      = ({} : ClassState Unit).version + 1 :=
  (configure_version_rules ({} : ClassState Unit)
    { version := 1, properties := [("id", Unit.unit)],
      partitionKey := some ["id"], rowKey := some ["id"] }
    _ rfl).1

/-- **C8.** For every stored record and every `updateEntity` call on the
in-memory backend with a specific eTag (not `'*'` and not absent): the
update is applied (merge or replace per mode) and a new content-derived
etag returned if and only if the supplied eTag equals the stored record's
content-derived etag; otherwise the call rejects with status 412 and code
`'UpdateConditionNotSatisfied'` — and, the model being functional, a
rejection carries no new store, so the stored record is unchanged. -/
theorem updateEntity_conditional_semantics
    (hash : Record → String) (t : String) (e : Record) (mode : String)
    (etg : String) (st : Store) (tbl : List (String × Record)) (stored : Record)
    (ht : assocGet st.tables t = some tbl)
    (hk : assocGet tbl (makeKey (getStrD e "PartitionKey") (getStrD e "RowKey"))
      = some stored)
    (hstar : etg ≠ "*") (hempty : etg ≠ "") :
    (etg ≠ entityEtag hash stored →
      updateEntity hash t e mode (some etg) st =
        .error ⟨412, "UpdateConditionNotSatisfied"⟩) ∧
    (etg = entityEtag hash stored →
      updateEntity hash t e mode (some etg) st =
        .ok (entityEtag hash (updApplied hash e stored mode),
          updStore hash t e mode st tbl stored)) := by
  constructor
  · intro hne
    simp only [updateEntity, ht, hk]
    rw [if_pos]
    refine ⟨by simpa using hstar, by simpa [optTruthy] using hempty, by simpa using hne⟩
  · intro heq
    simp only [updateEntity, ht, hk]
    rw [if_neg (fun hcond => hcond.2.2 (by simpa using heq))]
    by_cases hm : mode = "replace"
    · simp [hm, updApplied, updStore]
    · simp [hm, updApplied, updStore]

/-- Witness for C8: a mismatched eTag on a stored record is rejected with
412 `UpdateConditionNotSatisfied`. -/
theorem updateEntity_conditional_semantics_witness :
    updateEntity (fun _ => "h") "t"
        [("PartitionKey", CellVal.str "p"), ("RowKey", CellVal.str "r"),
         ("x", CellVal.num 1)]
        "merge" (some "zz")
        { tables := [("t", [("p!r", [("PartitionKey", CellVal.str "p")])])], ts := 1 }
      = .error ⟨412, "UpdateConditionNotSatisfied"⟩ :=
  (updateEntity_conditional_semantics (fun _ => "h") "t"
      [("PartitionKey", CellVal.str "p"), ("RowKey", CellVal.str "r"),
       ("x", CellVal.num 1)]
      "merge" "zz"
      { tables := [("t", [("p!r", [("PartitionKey", CellVal.str "p")])])], ts := 1 }
      [("p!r", [("PartitionKey", CellVal.str "p")])]
      [("PartitionKey", CellVal.str "p")]
      rfl rfl (by decide) (by decide)).1 (by decide)

theorem assocSet_assocSet_same {α : Type} (l : List (String × α)) (k : String)
    (v w : α) : assocSet (assocSet l k v) k w = assocSet l k w := by
  induction l with
  | nil => simp [assocSet]
  | cons p l ih =>
    by_cases hp : p.1 = k
    · simp [assocSet, hp]
    · simp [assocSet, hp, ih]

/-- **C4.** For every property bag `p` whose key already exists in the
table: `create(p)` without `overwriteIfExists` rejects with the dedicated
already-exists error carrying the backend's conflict status (409), while
`create(p2, true)` with the same key succeeds as an unconditional replace,
and a subsequent load (`getEntity` at that key) returns the second value:
the stored record is the second serialization (plus its `odata.etag`
stamp), agreeing with `serialize p2` on every data column. -/
theorem create_conflict_and_overwrite {P : Type}
    (hash : Record → String) (serialize : P → Record) (t : String)
    (p p2 : P) (st : Store) (tbl : List (String × Record)) (stored : Record)
    (ht : assocGet st.tables t = some tbl)
    (hpk : getStrD (serialize p2) "PartitionKey"
      = getStrD (serialize p) "PartitionKey")
    (hrk : getStrD (serialize p2) "RowKey" = getStrD (serialize p) "RowKey")
    (hk : assocGet tbl (makeKey (getStrD (serialize p) "PartitionKey")
      (getStrD (serialize p) "RowKey")) = some stored) :
    create hash serialize t p false st = .error ⟨409, "EntityAlreadyExists"⟩ ∧
    (∃ st2,
      create hash serialize t p2 true st
        = .ok (stampEtag hash (serialize p2), st2) ∧
      getEntity hash t (getStrD (serialize p2) "PartitionKey")
          (getStrD (serialize p2) "RowKey") st2
        = .ok (stampEtag hash (serialize p2)) ∧
      ∀ col : String, col ≠ "odata.etag" →
        assocGet (stampEtag hash (serialize p2)) col
          = assocGet (serialize p2) col) := by
  have hetag : entityEtag hash (stampEtag hash (serialize p2))
      = entityEtag hash (serialize p2) :=
    entityEtag_assocSet_odata hash _ _ _ (by decide)
  constructor
  · simp only [create, Bool.not_false, if_pos, insertEntity, ht, hk,
      Option.isSome_some, if_true]
    rfl
  · refine ⟨putRecord st t tbl (makeKey (getStrD (serialize p) "PartitionKey")
        (getStrD (serialize p) "RowKey")) (stampEtag hash (serialize p2)),
      ?_, ?_, ?_⟩
    · have hetag' := hetag
      simp only [stampEtag] at hetag'
      simp [create, updateEntity, ht, hpk, hrk, hk, putRecord, stampEtag,
        optTruthy, hetag']
    · simp only [getEntity, putRecord, hpk, hrk, assocGet_assocSet_self]
      rw [hetag]
      simp only [stampEtag, assocSet_assocSet_same]
    · intro col hcol
      exact assocGet_assocSet_ne _ _ _ _ hcol

/-- Witness for C4: creating over an existing `p!r` key without overwrite is
rejected with 409 `EntityAlreadyExists`. -/
theorem create_conflict_and_overwrite_witness :
    create (fun _ => "h")
        (fun n : Int => [("PartitionKey", CellVal.str "p"),
          ("RowKey", CellVal.str "r"), ("value", CellVal.num n)])
        "t" 1 false
        { tables := [("t", [("p!r", [("PartitionKey", CellVal.str "p")])])], ts := 1 }
      = .error ⟨409, "EntityAlreadyExists"⟩ :=
  (create_conflict_and_overwrite (fun _ => "h")
    (fun n : Int => [("PartitionKey", CellVal.str "p"),
      ("RowKey", CellVal.str "r"), ("value", CellVal.num n)])
    "t" 1 2
    { tables := [("t", [("p!r", [("PartitionKey", CellVal.str "p")])])], ts := 1 }
    [("p!r", [("PartitionKey", CellVal.str "p")])]
    [("PartitionKey", CellVal.str "p")]
    rfl rfl rfl rfl).1

theorem queryEntities_top_bound (t : String)
    (filter : Option (List (Record → Bool))) (topN : Nat)
    (npk nrk : Option String) (st : Store) (q : QueryResult)
    (h : queryEntities t filter (some topN) npk nrk st = .ok q)
    (h0 : topN ≠ 0) :
    q.entities.length ≤ topN := by
  simp only [queryEntities] at h
  split at h
  · cases h
  · split at h
    · rename_i hz
      exact absurd hz h0
    · split at h
      · cases h
        simp
      · cases h
        simp

/-- **C7 (amended).** When the caller supplies a positive `limit`, a
no-handler `scan` page holds at most `limit` entries (the backend is asked
for `Math.min(limit, 1000)`).  When the caller supplies no `limit`,
`Math.min(undefined, 1000)` is `NaN` and the backend applies no cap at all
— see `scan_no_limit_counterexample` for a 1001-entry page. -/
theorem scan_supplied_limit_bound {α : Type} (wrap : Record → α) (t : String)
    (filter : Option (List (Record → Bool))) (l : Nat) (cont : Option String)
    (st : Store) (page : ScanPage α)
    (hl : 1 ≤ l)
    (h : scanFetchResults wrap t filter (some l) cont st = .ok page) :
    page.entries.length ≤ l := by
  unfold scanFetchResults at h
  split at h
  · cases h
  · split at h
    · cases h
    · rename_i data hq
      cases h
      have hb := queryEntities_top_bound t filter (min l 1000) _ _ st data
        (by simpa [scanTop] using hq) (by omega)
      simpa using le_trans hb (by omega)

/-- Witness for the amended C7: a three-record table scanned with
`limit = 2` yields a two-entry page. -/
theorem scan_supplied_limit_bound_witness :
    (ScanPage.entries
      { entries := [[("PartitionKey", CellVal.str "p"), ("RowKey", CellVal.str "a")],
          [("PartitionKey", CellVal.str "p"), ("RowKey", CellVal.str "b")]]
        continuation := some "p~c" }).length ≤ 2 :=
  scan_supplied_limit_bound (fun r => r) "t" none 2 none
    { tables := [("t",
        [("a", [("PartitionKey", CellVal.str "p"), ("RowKey", CellVal.str "a")]),
         ("b", [("PartitionKey", CellVal.str "p"), ("RowKey", CellVal.str "b")]),
         ("c", [("PartitionKey", CellVal.str "p"), ("RowKey", CellVal.str "c")])])],
      ts := 1 }
    { entries := [[("PartitionKey", CellVal.str "p"), ("RowKey", CellVal.str "a")],
        [("PartitionKey", CellVal.str "p"), ("RowKey", CellVal.str "b")]]
      continuation := some "p~c" }
    (by decide) rfl

set_option maxRecDepth 100000 in
/-- **C7, counterexample to the claim as stated**: with no `limit`
supplied, the page is not capped at the claimed default of 1000 — scanning
a 1001-record table returns all 1001 entries in one page. -/
theorem scan_no_limit_counterexample :
    scanFetchResults (fun r => r) "T" none none none bigStore
      = .ok { entries := (bigTable.map fun p => p.2).map fun r => r
              continuation := none } ∧
    ((bigTable.map fun p => p.2).map fun r => r).length = 1001 ∧
    1000 < 1001 := by
  refine ⟨rfl, ?_, by omega⟩
  simp [bigTable]

/-- **C2.** For every entity instance whose cached schema version equals the
configured schema version, calling `modify` with a modifier that leaves
every property equal to its prior value (under each property Type's
`equal`, applied to the per-type clone that `modify` snapshots) resolves to
the same instance (only its live bag replaced by the modifier's in-place
result), performs zero `updateEntity` backend calls, and leaves the
instance's ETag unchanged. -/
theorem modify_noop {V : Type} [Inhabited V] (C : EntityClass V)
    (modifier : (String → V) → (String → V)) (self : Inst V)
    (trace : List (Step V))
    (hver : self.version = C.version)
    (hnochange : changedBag C.mapping (cloneBag C.mapping self.properties)
      (modifier self.properties) = false) :
    modify C modifier self trace =
      { inst := { self with properties := modifier self.properties }
        error := none
        updateCalls := [] } := by
  have hprep : attemptPrep C modifier self
      = .noop { self with properties := modifier self.properties } := by
    simp only [attemptPrep]
    rw [if_pos ⟨hver, by simp [hnochange]⟩]
  unfold modify
  cases trace with
  | nil => simp [attemptModify, hprep]
  | cons s t => simp [attemptModify, hprep]

/-- Witness for C2: an identity modifier on a one-property instance makes
no backend calls and keeps the ETag. -/
theorem modify_noop_witness :
    modify witClass (fun props => props) witSelf [] =
      { inst := { witSelf with properties := (fun props => props) witSelf.properties }
        error := none
        updateCalls := [] } :=
  modify_noop witClass (fun props => props) witSelf [] rfl rfl

/-- **C3.** For every `modify` call whose modifier changes some property
(so the no-op short circuit does not fire; a modifier that changes a
key-covering property always does) and makes the freshly computed exact
partition or row key differ from the one captured at load/create time,
`modify` raises the fatal key-immutability assertion before issuing the
write — zero `updateEntity` calls for any backend trace, so the error is
never retried and is not treated as a concurrency conflict. -/
theorem modify_key_immutability {V : Type} [Inhabited V] (C : EntityClass V)
    (modifier : (String → V) → (String → V)) (self : Inst V)
    (trace : List (Step V))
    (hchanged : self.version ≠ C.version ∨
      changedBag C.mapping (cloneBag C.mapping self.properties)
        (modifier self.properties) = true)
    (hkey : C.pkExact (modifier self.properties) ≠ self.partitionKey ∨
      (C.pkExact (modifier self.properties) = self.partitionKey ∧
       C.rkExact (modifier self.properties) ≠ self.rowKey)) :
    ((modify C modifier self trace).error
        = some (.keyModified "PartitionKey") ∨
     (modify C modifier self trace).error = some (.keyModified "RowKey")) ∧
    (modify C modifier self trace).updateCalls = [] := by
  have hnoop : ¬ (self.version = C.version ∧
      ¬ changedBag C.mapping (cloneBag C.mapping self.properties)
        (modifier self.properties) = true) := by
    rcases hchanged with h | h
    · exact fun hc => h hc.1
    · exact fun hc => hc.2 h
  unfold modify
  rcases hkey with hpk | ⟨hpk, hrk⟩
  · have hprep : attemptPrep C modifier self
        = .keyErr { self with properties := cloneBag C.mapping self.properties }
            "PartitionKey" := by
      simp only [attemptPrep]
      rw [if_neg hnoop, if_pos hpk]
    cases trace with
    | nil => refine ⟨Or.inl ?_, ?_⟩ <;> simp [attemptModify, hprep]
    | cons s t => refine ⟨Or.inl ?_, ?_⟩ <;> simp [attemptModify, hprep]
  · have hprep : attemptPrep C modifier self
        = .keyErr { self with properties := cloneBag C.mapping self.properties }
            "RowKey" := by
      simp only [attemptPrep]
      rw [if_neg hnoop, if_neg (not_not_intro hpk), if_pos hrk]
    cases trace with
    | nil => refine ⟨Or.inr ?_, ?_⟩ <;> simp [attemptModify, hprep]
    | cons s t => refine ⟨Or.inr ?_, ?_⟩ <;> simp [attemptModify, hprep]

/-- Witness for C3: incrementing `count`, which the partition key covers,
fails fatally with no backend call. -/
theorem modify_key_immutability_witness :
    ((modify witClassKeyed witInc witSelfKeyed []).error
        = some (.keyModified "PartitionKey") ∨
     (modify witClassKeyed witInc witSelfKeyed []).error
        = some (.keyModified "RowKey")) ∧
    (modify witClassKeyed witInc witSelfKeyed []).updateCalls = [] :=
  modify_key_immutability witClassKeyed witInc witSelfKeyed []
    (Or.inr rfl) (Or.inl (by decide))

/-- An attempt satisfying `attemptOk` runs all the way to its update call:
`attemptPrep` produces a `.send` whose conditional-update ETag is the
attempt baseline's and whose restored state is the baseline-restored
instance. -/
theorem attemptPrep_send {V : Type} [Inhabited V] (C : EntityClass V)
    (modifier : (String → V) → (String → V)) (s : Inst V)
    (hok : attemptOk C modifier s) :
    ∃ changes mode,
      attemptPrep C modifier s =
        .send { s with properties := modifier s.properties }
          { s with properties := cloneBag C.mapping s.properties }
          changes mode s.etag (modifier s.properties)
          (cloneBag C.mapping s.properties) := by
  obtain ⟨hch, hpk, hrk⟩ := hok
  exact ⟨_, _, by
    simp only [attemptPrep]
    rw [if_neg (fun hc => hc.2 (hch hc.1)), if_neg (not_not_intro hpk),
      if_neg (not_not_intro hrk)]⟩

theorem attemptModify_all_conflicts {V : Type} [Inhabited V]
    (C : EntityClass V) (modifier : (String → V) → (String → V)) :
    ∀ (rs : List (ReloadData V)) (self : Inst V) (acc : List (String → V))
      (calls : List UpdateCall),
      rs ≠ [] →
      (∀ s ∈ (List.scanl afterReload self rs).take rs.length,
        attemptOk C modifier s) →
      ∃ sl, (List.scanl afterReload self rs).get? (rs.length - 1) = some sl ∧
        (attemptModify C modifier self rs.length acc (rs.map conflictStep)
            calls).inst
          = { sl with properties := cloneBag C.mapping sl.properties } ∧
        (attemptModify C modifier self rs.length acc (rs.map conflictStep)
            calls).error
          = some (.congestion (cloneBag C.mapping sl.properties)
              (modifier sl.properties)
              (acc ++ (((List.scanl afterReload self rs).take (rs.length - 1)).map
                fun s => modifier s.properties))
              C.table) ∧
        (attemptModify C modifier self rs.length acc (rs.map conflictStep)
            calls).updateCalls.length
          = calls.length + rs.length := by
  intro rs
  induction rs with
  | nil => intro self acc calls hne _; exact absurd rfl hne
  | cons r rs' IH =>
    intro self acc calls _ hok
    have hself : attemptOk C modifier self :=
      hok self (by simp [List.scanl_cons])
    obtain ⟨changes, mode, hsend⟩ := attemptPrep_send C modifier self hself
    by_cases hrs : rs' = []
    · subst hrs
      refine ⟨self, by simp [List.scanl_cons], ?_, ?_, ?_⟩ <;>
        simp [attemptModify, conflictStep, hsend, List.scanl_cons]
    · have hlen' : rs'.length ≠ 0 := fun hz => hrs (List.eq_nil_of_length_eq_zero hz)
      have hstep :
          attemptModify C modifier self (r :: rs').length acc
              ((r :: rs').map conflictStep) calls
            = attemptModify C modifier (afterReload self r) rs'.length
                (acc ++ [modifier self.properties]) (rs'.map conflictStep)
                (calls ++ [⟨changes, mode, self.etag⟩]) := by
        simp only [List.map_cons, List.length_cons, attemptModify, conflictStep,
          hsend]
        rw [if_neg (by simp), if_neg (by simpa using hlen')]
        rfl
      have hok' : ∀ s ∈ (List.scanl afterReload (afterReload self r) rs').take
          rs'.length, attemptOk C modifier s := by
        intro s hs
        apply hok
        rw [List.scanl_cons, List.singleton_append, List.length_cons,
          List.take_succ_cons]
        exact List.mem_cons_of_mem _ hs
      obtain ⟨sl, hsl, hinst, herr, hcalls⟩ :=
        IH (afterReload self r) (acc ++ [modifier self.properties])
          (calls ++ [⟨changes, mode, self.etag⟩]) hrs hok'
      obtain ⟨m, hm⟩ := Nat.exists_eq_succ_of_ne_zero hlen'
      have hl : (acc ++ [modifier self.properties]) ++
            (((List.scanl afterReload (afterReload self r) rs').take
              (rs'.length - 1)).map fun s => modifier s.properties)
          = acc ++ (((List.scanl afterReload self (r :: rs')).take
              ((r :: rs').length - 1)).map fun s => modifier s.properties) := by
        rw [List.scanl_cons, List.singleton_append, List.length_cons,
          Nat.add_sub_cancel, hm, List.take_succ_cons, List.map_cons,
          Nat.succ_sub_one, List.append_assoc, List.singleton_append]
      refine ⟨sl, ?_, ?_, ?_, ?_⟩
      · rw [List.scanl_cons, List.singleton_append, List.length_cons,
          Nat.add_sub_cancel, hm, List.get?_cons_succ]
        rw [hm, Nat.succ_sub_one] at hsl
        exact hsl
      · rw [hstep, hinst]
      · rw [hstep, herr, ← hl]
      · rw [hstep, hcalls]
        simp only [List.length_append, List.length_cons, List.length_nil]
        omega

/-- **C1.** For every `modify` call whose conditional updates are all
rejected with the ETag-mismatch class (`'UpdateConditionNotSatisfied'`):
after each rejection the instance is restored to the attempt baseline and
then overwritten by a fresh reload, and the modifier is re-invoked against
the newly loaded state — so the chain of attempt inputs is exactly
`attemptStates` (initial state, then each reload).  This repeats for
`MAX_MODIFY_ATTEMPTS` (10) attempts; exhaustion yields the error with code
`'EntityWriteCongestionError'` carrying the failing attempt's pre-modifier
(original) properties, every intermediate attempted modification (the
modifier images of the earlier attempt states; the final attempt's is in
the `modifiedEntity` field), and the table name, with the instance left
restored to the final attempt's baseline. -/
theorem modify_congestion {V : Type} [Inhabited V] (C : EntityClass V)
    (modifier : (String → V) → (String → V)) (self0 : Inst V)
    (rs : List (ReloadData V))
    (hlen : rs.length = MAX_MODIFY_ATTEMPTS)
    (hok : ∀ s ∈ (attemptStates self0 rs).take MAX_MODIFY_ATTEMPTS,
      attemptOk C modifier s) :
    ∃ sl, (attemptStates self0 rs).get? (MAX_MODIFY_ATTEMPTS - 1) = some sl ∧
      (modify C modifier self0 (rs.map conflictStep)).error =
        some (.congestion (cloneBag C.mapping sl.properties)
          (modifier sl.properties)
          (((attemptStates self0 rs).take (MAX_MODIFY_ATTEMPTS - 1)).map
            fun s => modifier s.properties)
          C.table) ∧
      (modify C modifier self0 (rs.map conflictStep)).updateCalls.length
        = MAX_MODIFY_ATTEMPTS ∧
      (modify C modifier self0 (rs.map conflictStep)).inst =
        { sl with properties := cloneBag C.mapping sl.properties } := by
  obtain ⟨sl, h1, h2, h3, h4⟩ :=
    attemptModify_all_conflicts C modifier rs self0 [] []
      (fun h0 => by simp [h0, MAX_MODIFY_ATTEMPTS] at hlen)
      (by rw [hlen]; exact hok)
  rw [hlen] at h1 h2 h3 h4
  refine ⟨sl, h1, ?_, ?_, ?_⟩
  · show (attemptModify C modifier self0 MAX_MODIFY_ATTEMPTS []
        (rs.map conflictStep) []).error = _
    rw [h3]
    simp [attemptStates]
  · show (attemptModify C modifier self0 MAX_MODIFY_ATTEMPTS []
        (rs.map conflictStep) []).updateCalls.length = _
    rw [h4]
    simp
  · exact h2

/-- Witness for C1: ten straight conflicts (each reload reinstalling
`count = 0`) exhaust the attempts, with ten `updateEntity` calls issued. -/
theorem modify_congestion_witness :
    (modify witClass witInc witSelf
        ((List.replicate 10 witReload).map conflictStep)).updateCalls.length
      = MAX_MODIFY_ATTEMPTS := by
  obtain ⟨sl, h1, h2, h3, h4⟩ :=
    modify_congestion witClass witInc witSelf (List.replicate 10 witReload)
      rfl (by
        intro s hs
        rw [show (attemptStates witSelf
              (List.replicate 10 witReload)).take MAX_MODIFY_ATTEMPTS
            = witSelf :: List.replicate 9 (afterReload witSelf witReload)
          from rfl] at hs
        rcases List.mem_cons.mp hs with rfl | hs2
        · exact ⟨fun _ => rfl, rfl, rfl⟩
        · rw [List.eq_of_mem_replicate hs2]
          exact ⟨fun _ => rfl, rfl, rfl⟩)
  exact h3

theorem attemptPrep_keyErr_inv {V : Type} [Inhabited V] (C : EntityClass V)
    (modifier : (String → V) → (String → V)) (self restored : Inst V)
    (w : String)
    (hp : attemptPrep C modifier self = .keyErr restored w) :
    restored = { self with properties := cloneBag C.mapping self.properties } := by
  simp only [attemptPrep] at hp
  split at hp
  · simp at hp
  · split at hp
    · simp at hp
      exact hp.1.symm
    · split at hp
      · simp at hp
        exact hp.1.symm
      · simp at hp

theorem attemptPrep_send_inv {V : Type} [Inhabited V] (C : EntityClass V)
    (modifier : (String → V) → (String → V)) (self self1 restored : Inst V)
    (changes : Record) (mode eTag : String) (newProps baseline : String → V)
    (hp : attemptPrep C modifier self
      = .send self1 restored changes mode eTag newProps baseline) :
    restored = { self with properties := cloneBag C.mapping self.properties } ∧
    newProps = modifier self.properties := by
  simp only [attemptPrep] at hp
  split at hp
  · simp at hp
  · split at hp
    · simp at hp
    · split at hp
      · simp at hp
      · simp at hp
        exact ⟨hp.2.1.symm, hp.2.2.2.2.2.1.symm⟩

theorem attemptModify_error_restores {V : Type} [Inhabited V]
    (C : EntityClass V) (modifier : (String → V) → (String → V)) :
    ∀ (trace : List (Step V)) (self : Inst V) (n : Nat)
      (acc : List (String → V)) (calls : List UpdateCall) (e : ModifyErr V),
      (attemptModify C modifier self n acc trace calls).error = some e →
      e ≠ .oracleExhausted →
      ∃ k s,
        (List.scanl afterReload self (trace.map (·.reload))).get? k = some s ∧
        (attemptModify C modifier self n acc trace calls).inst =
          { s with properties := cloneBag C.mapping s.properties } ∧
        (attemptModify C modifier self n acc trace calls).updateCalls.length =
          calls.length + k + errCallAdj e := by
  intro trace
  induction trace with
  | nil =>
    intro self n acc calls e herr hne
    cases hp : attemptPrep C modifier self with
    | noop inst => simp [attemptModify, hp] at herr
    | keyErr restored w =>
      have hres := attemptPrep_keyErr_inv C modifier self restored w hp
      have he : e = .keyModified w := by
        simpa [attemptModify, hp] using herr.symm
      refine ⟨0, self, by simp, ?_, ?_⟩
      · simp [attemptModify, hp, hres]
      · simp [attemptModify, hp, he, errCallAdj]
    | send self1 restored changes mode eTag newProps baseline =>
      have he : e = .oracleExhausted := by
        simpa [attemptModify, hp] using herr.symm
      exact absurd he hne
  | cons step trace' IH =>
    intro self n acc calls e herr hne
    cases hp : attemptPrep C modifier self with
    | noop inst => simp [attemptModify, hp] at herr
    | keyErr restored w =>
      have hres := attemptPrep_keyErr_inv C modifier self restored w hp
      have he : e = .keyModified w := by
        simpa [attemptModify, hp] using herr.symm
      refine ⟨0, self, by simp, ?_, ?_⟩
      · simp [attemptModify, hp, hres]
      · simp [attemptModify, hp, he, errCallAdj]
    | send self1 restored changes mode eTag newProps baseline =>
      obtain ⟨hres, hnp⟩ :=
        attemptPrep_send_inv C modifier self self1 restored changes mode eTag
          newProps baseline hp
      cases hu : step.upd with
      | ok newTag => simp [attemptModify, hp, hu] at herr
      | err code =>
        by_cases hc : code ≠ "UpdateConditionNotSatisfied"
        · have he : e = .backend code := by
            simpa [attemptModify, hp, hu, hc] using herr.symm
          refine ⟨0, self, by simp, ?_, ?_⟩
          · simp [attemptModify, hp, hu, hc, hres]
          · simp [attemptModify, hp, hu, hc, he, errCallAdj]
        · by_cases hz : n - 1 = 0
          · have he : e = .congestion baseline newProps acc C.table := by
              simpa [attemptModify, hp, hu, hc, hz] using herr.symm
            refine ⟨0, self, by simp, ?_, ?_⟩
            · simp [attemptModify, hp, hu, hc, hz, hres]
            · simp [attemptModify, hp, hu, hc, hz, he, errCallAdj]
          · have hrec :
                attemptModify C modifier self n acc (step :: trace') calls
                  = attemptModify C modifier (afterReload self step.reload)
                      (n - 1) (acc ++ [newProps]) trace'
                      (calls ++ [⟨changes, mode, eTag⟩]) := by
              simp only [attemptModify, hp, hu]
              rw [if_neg (by simpa using hc), if_neg hz, hres]
              rfl
            rw [hrec] at herr
            obtain ⟨k, s, hget, hinst, hlen⟩ :=
              IH (afterReload self step.reload) (n - 1) (acc ++ [newProps])
                (calls ++ [⟨changes, mode, eTag⟩]) e herr hne
            refine ⟨k + 1, s, ?_, ?_, ?_⟩
            · rw [List.map_cons, List.scanl_cons, List.singleton_append,
                List.get?_cons_succ]
              exact hget
            · rw [hrec]
              exact hinst
            · rw [hrec, hlen]
              simp only [List.length_append, List.length_cons, List.length_nil]
              omega

/-- **C10.** Whenever `modify` rejects with any error — a fatal key
assertion, a non-conflict backend error, or exhaustion of the retry budget
— the instance's in-memory properties, ETag, and version are first
restored to the baseline snapshot taken at the start of the failed attempt
(attempt `k + 1`, whose start state `s` is the initial instance or a
reload-applied state): the final properties are the per-type clones
snapshotted from `s`, and the ETag and version are `s`'s own.  A failed
`modify` therefore never leaves the modifier's partial mutations visible
on the instance.  (`oracleExhausted` is the model's artifact for a trace
shorter than the attempt loop and corresponds to no program behaviour.) -/
theorem modify_error_restores_baseline {V : Type} [Inhabited V]
    (C : EntityClass V) (modifier : (String → V) → (String → V))
    (self : Inst V) (trace : List (Step V)) (e : ModifyErr V)
    (herr : (modify C modifier self trace).error = some e)
    (hne : e ≠ .oracleExhausted) :
    ∃ k s,
      (List.scanl afterReload self (trace.map (·.reload))).get? k = some s ∧
      (modify C modifier self trace).inst =
        { s with properties := cloneBag C.mapping s.properties } ∧
      (modify C modifier self trace).updateCalls.length = k + errCallAdj e := by
  obtain ⟨k, s, h1, h2, h3⟩ :=
    attemptModify_error_restores C modifier trace self MAX_MODIFY_ATTEMPTS
      [] [] e herr hne
  exact ⟨k, s, h1, h2, by simpa using h3⟩

/-- Witness for C10: a fatal backend error (`"Boom"`) on the first attempt
leaves the instance restored to its pre-modify baseline. -/
theorem modify_error_restores_baseline_witness :
    (modify witClass witInc witSelf [⟨UpdResp.err "Boom", witReload⟩]).inst
      = { witSelf with properties := cloneBag witClass.mapping witSelf.properties } := by
  obtain ⟨k, s, h1, h2, h3⟩ :=
    modify_error_restores_baseline witClass witInc witSelf
      [⟨UpdResp.err "Boom", witReload⟩] (.backend "Boom") rfl
      (fun h => by cases h)
  have hlen : (modify witClass witInc witSelf
      [⟨UpdResp.err "Boom", witReload⟩]).updateCalls.length = 1 := rfl
  rw [hlen] at h3
  have hk : k = 0 := by
    simp [errCallAdj] at h3
    omega
  subst hk
  have hs : s = witSelf := by
    have hh : (List.scanl afterReload witSelf
        (([⟨UpdResp.err "Boom", witReload⟩] : List (Step Int)).map (·.reload))).get? 0
        = some witSelf := rfl
    rw [hh] at h1
    exact (Option.some.inj h1).symm
  rw [hs] at h2
  exact h2

/-! ### The continuation-token round trip (C6)

`encodeContinuationToken` percent-encodes each cursor key
(`encodeURIComponent` plus `.replace(/~/g, '%7e')`) and joins the two with
a tilde; `decodeContinuationToken` splits at the tilde and percent-decodes
each half.  The chain below shows the decoder inverts the encoder one
character at a time, that no encoded character is a tilde (so the split
recovers the two halves), and that every encoded character lies in the
character class of `Entity.continuationTokenPattern`. -/

theorem hexVal_hexDigitU (d : Nat) (h : d < 16) : hexVal (hexDigitU d) = some d := by
  interval_cases d <;> decide

theorem uriTokens_cons_ne (c : Char) (rest : List Char) (hc : c ≠ '%') :
    uriTokens (c :: rest) = (uriTokens rest).map fun ts => UriTok.lit c :: ts := by
  conv_lhs => rw [uriTokens.eq_def]
  split <;> simp_all

theorem uriTokens_percent (b : Nat) (hb : b < 256) (rest : List Char) :
    uriTokens (percentByte b ++ rest) =
      (uriTokens rest).map fun ts => UriTok.byte b :: ts := by
  simp only [percentByte, List.cons_append, List.nil_append]
  rw [uriTokens]
  rw [hexVal_hexDigitU _ (by omega), hexVal_hexDigitU _ (by omega)]
  have hd : b / 16 * 16 + b % 16 = b := by omega
  simp only [hd]

theorem utf8Decode_lit (c : Char) (rest : List UriTok) :
    utf8Decode (UriTok.lit c :: rest) = (utf8Decode rest).map fun cs => c :: cs := by
  rw [utf8Decode]

theorem utf8Decode_byte1 (b : Nat) (hb : b < 0x80) (rest : List UriTok) :
    utf8Decode (UriTok.byte b :: rest) =
      (utf8Decode rest).map fun cs => Char.ofNat b :: cs := by
  rw [utf8Decode, if_pos hb]

theorem utf8Decode_byte2 (b0 b1 : Nat) (h0 : 0xC0 ≤ b0) (h0' : b0 < 0xE0)
    (h1 : 0x80 ≤ b1) (h1' : b1 < 0xC0)
    (hv : Nat.isValidChar ((b0 - 0xC0) * 64 + (b1 - 0x80))) (rest : List UriTok) :
    utf8Decode (UriTok.byte b0 :: UriTok.byte b1 :: rest) =
      (utf8Decode rest).map fun cs => Char.ofNat ((b0 - 0xC0) * 64 + (b1 - 0x80)) :: cs := by
  rw [utf8Decode, if_neg (by omega), if_neg (by omega), if_pos (by omega), utf8Cont1]
  rw [if_pos (by simp [utf8ContOk]; omega)]
  dsimp only
  rw [if_pos hv]

theorem utf8Decode_byte3 (b0 b1 b2 : Nat) (h0 : 0xE0 ≤ b0) (h0' : b0 < 0xF0)
    (h1 : 0x80 ≤ b1) (h1' : b1 < 0xC0) (h2 : 0x80 ≤ b2) (h2' : b2 < 0xC0)
    (hv : Nat.isValidChar ((b0 - 0xE0) * 4096 + (b1 - 0x80) * 64 + (b2 - 0x80)))
    (rest : List UriTok) :
    utf8Decode (UriTok.byte b0 :: UriTok.byte b1 :: UriTok.byte b2 :: rest) =
      (utf8Decode rest).map fun cs =>
        Char.ofNat ((b0 - 0xE0) * 4096 + (b1 - 0x80) * 64 + (b2 - 0x80)) :: cs := by
  rw [utf8Decode, if_neg (by omega), if_neg (by omega), if_neg (by omega),
    if_pos (by omega), utf8Cont2]
  rw [if_pos (by simp [utf8ContOk]; omega)]
  dsimp only
  rw [if_pos hv]

theorem utf8Decode_byte4 (b0 b1 b2 b3 : Nat) (h0 : 0xF0 ≤ b0) (h0' : b0 < 0xF8)
    (h1 : 0x80 ≤ b1) (h1' : b1 < 0xC0) (h2 : 0x80 ≤ b2) (h2' : b2 < 0xC0)
    (h3 : 0x80 ≤ b3) (h3' : b3 < 0xC0)
    (hv : Nat.isValidChar ((b0 - 0xF0) * 262144 + (b1 - 0x80) * 4096 +
      (b2 - 0x80) * 64 + (b3 - 0x80)))
    (rest : List UriTok) :
    utf8Decode (UriTok.byte b0 :: UriTok.byte b1 :: UriTok.byte b2 ::
        UriTok.byte b3 :: rest) =
      (utf8Decode rest).map fun cs =>
        Char.ofNat ((b0 - 0xF0) * 262144 + (b1 - 0x80) * 4096 +
          (b2 - 0x80) * 64 + (b3 - 0x80)) :: cs := by
  rw [utf8Decode, if_neg (by omega), if_neg (by omega), if_neg (by omega),
    if_neg (by omega), if_pos (by omega), utf8Cont3]
  rw [if_pos (by simp [utf8ContOk]; omega)]
  dsimp only
  rw [if_pos hv]

theorem uriTokens_bytes (bs : List Nat) (h : ∀ b ∈ bs, b < 256) (rest : List Char) :
    uriTokens (bs.flatMap percentByte ++ rest) =
      (uriTokens rest).map fun ts => bs.map UriTok.byte ++ ts := by
  induction bs with
  | nil => simp
  | cons b bs ih =>
    simp only [List.flatMap_cons, List.append_assoc, List.map_cons]
    rw [uriTokens_percent b (h b (by simp)), ih (fun x hx => h x (by simp [hx]))]
    cases uriTokens rest <;> rfl

theorem utf8Bytes_lt (c : Char) : ∀ b ∈ utf8Bytes c, b < 256 := by
  have hval : Nat.isValidChar c.toNat := c.valid
  have hbound : c.toNat < 1114112 := by
    rcases hval with h | ⟨_, h⟩ <;> omega
  intro b hb
  simp only [utf8Bytes] at hb
  split at hb
  · simp only [List.mem_cons, List.not_mem_nil, or_false] at hb
    omega
  · split at hb
    · simp only [List.mem_cons, List.not_mem_nil, or_false] at hb
      rcases hb with rfl | rfl <;> omega
    · split at hb
      · simp only [List.mem_cons, List.not_mem_nil, or_false] at hb
        rcases hb with rfl | rfl | rfl <;> omega
      · simp only [List.mem_cons, List.not_mem_nil, or_false] at hb
        rcases hb with rfl | rfl | rfl | rfl <;> omega

theorem utf8Decode_utf8Bytes (c : Char) (ts : List UriTok) :
    utf8Decode ((utf8Bytes c).map UriTok.byte ++ ts) =
      (utf8Decode ts).map fun cs => c :: cs := by
  have hval : Nat.isValidChar c.toNat := c.valid
  by_cases hr1 : c.toNat < 0x80
  · simp only [utf8Bytes, if_pos hr1, List.map_cons, List.map_nil,
      List.cons_append, List.nil_append]
    rw [utf8Decode_byte1 _ hr1, Char.ofNat_toNat]
  · by_cases hr2 : c.toNat < 0x800
    · simp only [utf8Bytes, if_neg hr1, if_pos hr2, List.map_cons, List.map_nil,
        List.cons_append, List.nil_append]
      have harith : (0xC0 + c.toNat / 64 - 0xC0) * 64 + (0x80 + c.toNat % 64 - 0x80)
          = c.toNat := by omega
      rw [utf8Decode_byte2 _ _ (by omega) (by omega) (by omega) (by omega)
        (by rw [harith]; exact hval), harith, Char.ofNat_toNat]
    · by_cases hr3 : c.toNat < 0x10000
      · simp only [utf8Bytes, if_neg hr1, if_neg hr2, if_pos hr3, List.map_cons,
          List.map_nil, List.cons_append, List.nil_append]
        have harith : (0xE0 + c.toNat / 4096 - 0xE0) * 4096 +
            (0x80 + c.toNat / 64 % 64 - 0x80) * 64 + (0x80 + c.toNat % 64 - 0x80)
            = c.toNat := by omega
        rw [utf8Decode_byte3 _ _ _ (by omega) (by omega) (by omega) (by omega)
          (by omega) (by omega) (by rw [harith]; exact hval), harith, Char.ofNat_toNat]
      · have hbound : c.toNat < 1114112 := by
          rcases hval with h | ⟨_, h⟩ <;> omega
        simp only [utf8Bytes, if_neg hr1, if_neg hr2, if_neg hr3, List.map_cons,
          List.map_nil, List.cons_append, List.nil_append]
        have harith : (0xF0 + c.toNat / 262144 - 0xF0) * 262144 +
            (0x80 + c.toNat / 4096 % 64 - 0x80) * 4096 +
            (0x80 + c.toNat / 64 % 64 - 0x80) * 64 + (0x80 + c.toNat % 64 - 0x80)
            = c.toNat := by omega
        rw [utf8Decode_byte4 _ _ _ _ (by omega) (by omega) (by omega) (by omega)
          (by omega) (by omega) (by omega) (by omega)
          (by rw [harith]; exact hval), harith, Char.ofNat_toNat]

theorem decode_glue (pre : List Char) (toks : List UriTok) (c : Char)
    (hpre : ∀ rest, uriTokens (pre ++ rest) =
      (uriTokens rest).map fun ts => toks ++ ts)
    (htok : ∀ ts, utf8Decode (toks ++ ts) =
      (utf8Decode ts).map fun cs => c :: cs)
    (rest : List Char) :
    decodeURIChars (pre ++ rest) = (decodeURIChars rest).map fun cs => c :: cs := by
  simp only [decodeURIChars, hpre]
  cases uriTokens rest with
  | none => rfl
  | some ts => simp [htok]

theorem hexDigitU_ne_tilde (d : Nat) (h : d < 16) : hexDigitU d ≠ '~' := by
  interval_cases d <;> decide

theorem uriUnreserved_ne_percent (c : Char) (hu : uriUnreserved c = true) :
    c ≠ '%' := by
  intro h
  subst h
  exact absurd hu (by decide)

theorem decodeURIChars_encChar (c : Char) (rest : List Char) :
    decodeURIChars ((encodeURIChar c).flatMap replaceTildeChar ++ rest) =
      (decodeURIChars rest).map fun cs => c :: cs := by
  by_cases hu : uriUnreserved c
  · by_cases ht : c = '~'
    · subst ht
      have he : (encodeURIChar '~').flatMap replaceTildeChar = ['%', '7', 'e'] := by
        decide
      rw [he]
      refine decode_glue ['%', '7', 'e'] [UriTok.byte 126] '~' ?_ ?_ rest
      · intro r
        simp only [List.cons_append, List.nil_append]
        rw [uriTokens, show hexVal '7' = some 7 from by decide,
          show hexVal 'e' = some 14 from by decide]
      · intro ts
        rw [List.singleton_append, utf8Decode_byte1 126 (by norm_num)]
    · have he : (encodeURIChar c).flatMap replaceTildeChar = [c] := by
        rw [encodeURIChar, if_pos hu]
        simp [replaceTildeChar, ht]
      rw [he]
      refine decode_glue [c] [UriTok.lit c] c ?_ ?_ rest
      · intro r
        rw [List.singleton_append]
        exact uriTokens_cons_ne c r (uriUnreserved_ne_percent c hu)
      · intro ts
        rw [List.singleton_append, utf8Decode_lit]
  · have he : (encodeURIChar c).flatMap replaceTildeChar =
        (utf8Bytes c).flatMap percentByte := by
      rw [encodeURIChar, if_neg hu]
      have hper : ∀ b < 256, (percentByte b).flatMap replaceTildeChar = percentByte b := by
        intro b hb
        simp only [percentByte, List.flatMap_cons, List.flatMap_nil,
          List.append_nil, replaceTildeChar]
        rw [if_neg (by decide : ¬ ('%' : Char) = '~'),
          if_neg (hexDigitU_ne_tilde _ (by omega)),
          if_neg (hexDigitU_ne_tilde _ (by omega))]
        rfl
      have : ((utf8Bytes c).flatMap percentByte).flatMap replaceTildeChar =
          (utf8Bytes c).flatMap fun b => (percentByte b).flatMap replaceTildeChar := by
        induction utf8Bytes c with
        | nil => rfl
        | cons b bs ih => simp only [List.flatMap_cons, List.flatMap_append, ih]
      rw [this]
      exact List.flatMap_congr fun b hb => hper b (utf8Bytes_lt c b hb)
    rw [he]
    exact decode_glue _ _ c (uriTokens_bytes (utf8Bytes c) (utf8Bytes_lt c))
      (utf8Decode_utf8Bytes c) rest

theorem decodeURIChars_keyEnc (s : List Char) (rest : List Char) :
    decodeURIChars
        ((s.flatMap fun c => (encodeURIChar c).flatMap replaceTildeChar) ++ rest) =
      (decodeURIChars rest).map fun cs => s ++ cs := by
  induction s with
  | nil => simp
  | cons c s ih =>
    simp only [List.flatMap_cons, List.append_assoc]
    rw [decodeURIChars_encChar, ih]
    cases decodeURIChars rest <;> rfl

theorem encCharT_lit (c : Char) (hu : uriUnreserved c = true) (ht : c ≠ '~') :
    (encodeURIChar c).flatMap replaceTildeChar = [c] := by
  rw [encodeURIChar, if_pos hu]
  simp [replaceTildeChar, ht]

theorem encCharT_escape (c : Char) (hu : ¬ uriUnreserved c = true) :
    (encodeURIChar c).flatMap replaceTildeChar = (utf8Bytes c).flatMap percentByte := by
  rw [encodeURIChar, if_neg hu]
  have hper : ∀ b < 256, (percentByte b).flatMap replaceTildeChar = percentByte b := by
    intro b hb
    simp only [percentByte, List.flatMap_cons, List.flatMap_nil,
      List.append_nil, replaceTildeChar]
    rw [if_neg (by decide : ¬ ('%' : Char) = '~'),
      if_neg (hexDigitU_ne_tilde _ (by omega)),
      if_neg (hexDigitU_ne_tilde _ (by omega))]
    rfl
  have hfm : ((utf8Bytes c).flatMap percentByte).flatMap replaceTildeChar =
      (utf8Bytes c).flatMap fun b => (percentByte b).flatMap replaceTildeChar := by
    induction utf8Bytes c with
    | nil => rfl
    | cons b bs ih => simp only [List.flatMap_cons, List.flatMap_append, ih]
  rw [hfm]
  exact List.flatMap_congr fun b hb => hper b (utf8Bytes_lt c b hb)

theorem encChar_no_tilde (c : Char) :
    ∀ x ∈ (encodeURIChar c).flatMap replaceTildeChar, x ≠ '~' := by
  intro x hx
  by_cases hu : uriUnreserved c
  · by_cases ht : c = '~'
    · subst ht
      rw [show (encodeURIChar '~').flatMap replaceTildeChar = ['%', '7', 'e']
        from by decide] at hx
      simp only [List.mem_cons, List.not_mem_nil, or_false] at hx
      rcases hx with rfl | rfl | rfl <;> decide
    · rw [encCharT_lit c hu ht] at hx
      simp only [List.mem_cons, List.not_mem_nil, or_false] at hx
      subst hx
      exact ht
  · rw [encCharT_escape c hu] at hx
    simp only [List.mem_flatMap] at hx
    obtain ⟨b, hb, hxb⟩ := hx
    have hb' : b < 256 := utf8Bytes_lt c b hb
    simp only [percentByte, List.mem_cons, List.not_mem_nil, or_false] at hxb
    rcases hxb with rfl | rfl | rfl
    · decide
    · exact hexDigitU_ne_tilde _ (by omega)
    · exact hexDigitU_ne_tilde _ (by omega)

theorem tokenPatternChar_hexDigitU (d : Nat) (h : d < 16) :
    tokenPatternChar (hexDigitU d) = true := by
  interval_cases d <;> decide

theorem tokenPatternChar_unreserved (c : Char) (hu : uriUnreserved c = true)
    (ht : c ≠ '~') : tokenPatternChar c = true := by
  simp only [uriUnreserved, charBetween, Bool.or_eq_true, Bool.and_eq_true,
    decide_eq_true_eq] at hu
  simp only [tokenPatternChar, charBetween, Bool.or_eq_true, Bool.and_eq_true,
    decide_eq_true_eq]
  rcases hu with h | h | h | h | h | h | h | h | h | h | h | h
  all_goals tauto

theorem encChar_pattern (c : Char) :
    ∀ x ∈ (encodeURIChar c).flatMap replaceTildeChar, tokenPatternChar x = true := by
  intro x hx
  by_cases hu : uriUnreserved c
  · by_cases ht : c = '~'
    · subst ht
      rw [show (encodeURIChar '~').flatMap replaceTildeChar = ['%', '7', 'e']
        from by decide] at hx
      simp only [List.mem_cons, List.not_mem_nil, or_false] at hx
      rcases hx with rfl | rfl | rfl <;> decide
    · rw [encCharT_lit c hu ht] at hx
      simp only [List.mem_cons, List.not_mem_nil, or_false] at hx
      subst hx
      exact tokenPatternChar_unreserved x hu ht
  · rw [encCharT_escape c hu] at hx
    simp only [List.mem_flatMap] at hx
    obtain ⟨b, hb, hxb⟩ := hx
    have hb' : b < 256 := utf8Bytes_lt c b hb
    simp only [percentByte, List.mem_cons, List.not_mem_nil, or_false] at hxb
    rcases hxb with rfl | rfl | rfl
    · decide
    · exact tokenPatternChar_hexDigitU _ (by omega)
    · exact tokenPatternChar_hexDigitU _ (by omega)

theorem splitOnTilde_no_tilde (b : List Char) (hb : ∀ c ∈ b, c ≠ '~') :
    splitOnTilde b = [b] := by
  induction b with
  | nil => rfl
  | cons c b ih =>
    rw [splitOnTilde, ih fun x hx => hb x (List.mem_cons_of_mem _ hx)]
    simp [hb c (List.mem_cons_self c b)]

theorem splitOnTilde_append (a b : List Char) (ha : ∀ c ∈ a, c ≠ '~')
    (hb : ∀ c ∈ b, c ≠ '~') : splitOnTilde (a ++ '~' :: b) = [a, b] := by
  induction a with
  | nil =>
    rw [List.nil_append, splitOnTilde, splitOnTilde_no_tilde b hb]
    simp
  | cons c a ih =>
    rw [List.cons_append, splitOnTilde,
      ih fun x hx => ha x (List.mem_cons_of_mem _ hx)]
    simp [ha c (List.mem_cons_self c a)]

theorem keyEncChars_no_tilde (s : String) :
    ∀ x ∈ (replaceTildes (encodeURIComponent s)).data, x ≠ '~' := by
  intro x hx
  have hdata : (replaceTildes (encodeURIComponent s)).data =
      s.data.flatMap fun c => (encodeURIChar c).flatMap replaceTildeChar := by
    show (s.data.flatMap encodeURIChar).flatMap replaceTildeChar = _
    induction s.data with
    | nil => rfl
    | cons c cs ih => simp only [List.flatMap_cons, List.flatMap_append, ih]
  rw [hdata] at hx
  simp only [List.mem_flatMap] at hx
  obtain ⟨c, _, hxc⟩ := hx
  exact encChar_no_tilde c x (List.mem_flatMap.mpr hxc)

theorem keyEncChars_pattern (s : String) :
    ∀ x ∈ (replaceTildes (encodeURIComponent s)).data, tokenPatternChar x = true := by
  intro x hx
  have hdata : (replaceTildes (encodeURIComponent s)).data =
      s.data.flatMap fun c => (encodeURIChar c).flatMap replaceTildeChar := by
    show (s.data.flatMap encodeURIChar).flatMap replaceTildeChar = _
    induction s.data with
    | nil => rfl
    | cons c cs ih => simp only [List.flatMap_cons, List.flatMap_append, ih]
  rw [hdata] at hx
  simp only [List.mem_flatMap] at hx
  obtain ⟨c, _, hxc⟩ := hx
  exact encChar_pattern c x (List.mem_flatMap.mpr hxc)

theorem decodeURIChars_keyEncChars (s : String) :
    decodeURIChars (replaceTildes (encodeURIComponent s)).data = some s.data := by
  have hdata : (replaceTildes (encodeURIComponent s)).data =
      s.data.flatMap fun c => (encodeURIChar c).flatMap replaceTildeChar := by
    show (s.data.flatMap encodeURIChar).flatMap replaceTildeChar = _
    induction s.data with
    | nil => rfl
    | cons c cs ih => simp only [List.flatMap_cons, List.flatMap_append, ih]
  rw [hdata, show (s.data.flatMap fun c => (encodeURIChar c).flatMap replaceTildeChar)
    = (s.data.flatMap fun c => (encodeURIChar c).flatMap replaceTildeChar) ++ []
    from (List.append_nil _).symm, decodeURIChars_keyEnc]
  simp [decodeURIChars, uriTokens, utf8Decode]

/-- **C6.** For every `queryEntities` result that has a (truthy)
`nextPartitionKey` or `nextRowKey`, `encodeContinuationToken` produces a
token that matches `Entity.continuationTokenPattern`, and
`decodeContinuationToken` applied to that token recovers exactly the
original `nextPartitionKey` and `nextRowKey` — for all key strings,
including keys containing `~` and empty keys. -/
theorem continuation_token_roundtrip (entities : List Record) (pk rk : String)
    (h : ¬ pk = "" ∨ ¬ rk = "") :
    ∃ tok : String,
      encodeContinuationToken ⟨entities, some pk, some rk⟩ = some tok ∧
      matchesTokenPattern tok = true ∧
      decodeContinuationToken (some tok) = .ok (some pk, some rk) := by
  refine ⟨replaceTildes (encodeURIComponent pk) ++ "~"
    ++ replaceTildes (encodeURIComponent rk), ?_, ?_, ?_⟩
  · rw [encodeContinuationToken, if_neg]
    · rfl
    · intro hcon
      obtain ⟨hp, hr⟩ := hcon
      rcases h with h | h
      · exact h (by simpa [optTruthy] using hp)
      · exact h (by simpa [optTruthy] using hr)
  · have hdata : (replaceTildes (encodeURIComponent pk) ++ "~"
        ++ replaceTildes (encodeURIComponent rk)).data =
        (replaceTildes (encodeURIComponent pk)).data ++ '~' ::
          (replaceTildes (encodeURIComponent rk)).data := by
      simp [String.data_append]
    rw [matchesTokenPattern, hdata,
      splitOnTilde_append _ _ (keyEncChars_no_tilde pk) (keyEncChars_no_tilde rk)]
    simp only [Bool.and_eq_true, List.all_eq_true]
    exact ⟨keyEncChars_pattern pk, keyEncChars_pattern rk⟩
  · have hdata : (replaceTildes (encodeURIComponent pk) ++ "~"
        ++ replaceTildes (encodeURIComponent rk)).data =
        (replaceTildes (encodeURIComponent pk)).data ++ '~' ::
          (replaceTildes (encodeURIComponent rk)).data := by
      simp [String.data_append]
    rw [decodeContinuationToken, hdata,
      splitOnTilde_append _ _ (keyEncChars_no_tilde pk) (keyEncChars_no_tilde rk)]
    simp only [decodeURIChars_keyEncChars]

/-- Witness for **C6** at a key pair containing both a tilde and an empty
key. -/
theorem continuation_token_roundtrip_witness :
    (¬ "a~b" = "" ∨ ¬ "" = "") ∧
    ∃ tok : String,
      encodeContinuationToken ⟨[], some "a~b", some ""⟩ = some tok ∧
      matchesTokenPattern tok = true ∧
      decodeContinuationToken (some tok) = .ok (some "a~b", some "") :=
  ⟨Or.inl (by decide),
    continuation_token_roundtrip [] "a~b" "" (Or.inl (by decide))⟩

/-! ### The slugid round trip (C9)

`slugid.encode(slugid.decode(slug))` reproduces the slug exactly when the
low four bits of the final base64 character are zero — the bits Node's
base64 decoder drops.  The chain: base64 values invert the base64url
alphabet, the hex formatting of `uuidFromBytes` inverts `hexPairBytes`
after the dashes are filtered out, and the four-characters-to-three-bytes
groups invert byte-by-byte. -/

theorem hexVal_hexDigitL (d : Nat) (h : d < 16) : hexVal (hexDigitL d) = some d := by
  interval_cases d <;> decide

theorem hexDigitL_ne_dash (d : Nat) (h : d < 16) : hexDigitL d ≠ '-' := by
  interval_cases d <;> decide

theorem b64Val_lt64 (c : Char) : b64Val c < 64 := by
  rw [b64Val]
  repeat' split
  all_goals omega

theorem b64Char_b64Val (c : Char) (h : isSlugChar c = true) :
    b64Char (b64Val c) = c := by
  simp only [isSlugChar, charBetween, Bool.or_eq_true, Bool.and_eq_true,
    decide_eq_true_eq, or_assoc] at h
  rcases h with ⟨h1, h2⟩ | ⟨h1, h2⟩ | ⟨h1, h2⟩ | h | h
  · rw [b64Val, if_neg (by omega), if_pos (by omega), b64Char,
      if_neg (by omega), if_pos (by omega)]
    rw [show 97 + (c.toNat - 97 + 26) - 26 = c.toNat from by omega, Char.ofNat_toNat]
  · rw [b64Val, if_pos (by omega), b64Char, if_pos (by omega)]
    rw [show 65 + (c.toNat - 65) = c.toNat from by omega, Char.ofNat_toNat]
  · rw [b64Val, if_neg (by omega), if_neg (by omega), if_pos (by omega), b64Char,
      if_neg (by omega), if_neg (by omega), if_pos (by omega)]
    rw [show 48 + (c.toNat - 48 + 52) - 52 = c.toNat from by omega, Char.ofNat_toNat]
  · subst h; decide
  · subst h; decide

theorem hexPairBytes_flatMap (bs : List Nat) (h : ∀ b ∈ bs, b < 256) :
    hexPairBytes (bs.flatMap byteHex) = bs := by
  induction bs with
  | nil => rfl
  | cons b bs ih =>
    have hb : b < 256 := h b (by simp)
    simp only [List.flatMap_cons, byteHex, List.cons_append, List.nil_append]
    rw [hexPairBytes, hexVal_hexDigitL _ (by omega), hexVal_hexDigitL _ (by omega)]
    simp only [Option.getD_some]
    rw [show b / 16 * 16 + b % 16 = b from by omega,
      ih fun x hx => h x (by simp [hx])]

theorem filter_uuidFromBytes (bs : List Nat) (h : ∀ b ∈ bs, b < 256) :
    (uuidFromBytes bs).data.filter (fun c => c ≠ '-') = bs.flatMap byteHex := by
  have hhex : ∀ c ∈ bs.flatMap byteHex, c ≠ '-' := by
    intro c hc
    simp only [List.mem_flatMap, byteHex, List.mem_cons, List.not_mem_nil,
      or_false] at hc
    obtain ⟨b, hb, hcb⟩ := hc
    have hb' : b < 256 := h b hb
    rcases hcb with rfl | rfl
    · exact hexDigitL_ne_dash _ (by omega)
    · exact hexDigitL_ne_dash _ (by omega)
  have hsub : ∀ (l : List Char), (∀ c ∈ l, c ∈ bs.flatMap byteHex) →
      l.filter (fun c => c ≠ '-') = l := by
    intro l hl
    apply List.filter_eq_self.mpr
    intro c hc
    simpa using hhex c (hl c hc)
  have hdash : (['-'] : List Char).filter (fun c => c ≠ '-') = [] := rfl
  have hdata : (uuidFromBytes bs).data =
      (bs.flatMap byteHex).take 8 ++ ['-'] ++ ((bs.flatMap byteHex).drop 8).take 4
        ++ ['-'] ++ ((bs.flatMap byteHex).drop 12).take 4 ++ ['-']
        ++ ((bs.flatMap byteHex).drop 16).take 4 ++ ['-']
        ++ (bs.flatMap byteHex).drop 20 := rfl
  rw [hdata]
  simp only [List.filter_append, hdash,
    List.append_nil, List.nil_append]
  rw [hsub ((bs.flatMap byteHex).take 8) (fun c hc => List.take_subset _ _ hc),
    hsub (((bs.flatMap byteHex).drop 8).take 4)
      (fun c hc => List.drop_subset _ _ (List.take_subset _ _ hc)),
    hsub (((bs.flatMap byteHex).drop 12).take 4)
      (fun c hc => List.drop_subset _ _ (List.take_subset _ _ hc)),
    hsub (((bs.flatMap byteHex).drop 16).take 4)
      (fun c hc => List.drop_subset _ _ (List.take_subset _ _ hc)),
    hsub ((bs.flatMap byteHex).drop 20) (fun c hc => List.drop_subset _ _ hc)]
  have h16 : ((bs.flatMap byteHex).drop 16).take 4 ++ (bs.flatMap byteHex).drop 20
      = (bs.flatMap byteHex).drop 16 := by
    rw [show (bs.flatMap byteHex).drop 20 = ((bs.flatMap byteHex).drop 16).drop 4
      from by rw [List.drop_drop]]
    exact List.take_append_drop _ _
  have h12 : ((bs.flatMap byteHex).drop 12).take 4 ++ (bs.flatMap byteHex).drop 16
      = (bs.flatMap byteHex).drop 12 := by
    rw [show (bs.flatMap byteHex).drop 16 = ((bs.flatMap byteHex).drop 12).drop 4
      from by rw [List.drop_drop]]
    exact List.take_append_drop _ _
  have h8 : ((bs.flatMap byteHex).drop 8).take 4 ++ (bs.flatMap byteHex).drop 12
      = (bs.flatMap byteHex).drop 8 := by
    rw [show (bs.flatMap byteHex).drop 12 = ((bs.flatMap byteHex).drop 8).drop 4
      from by rw [List.drop_drop]]
    exact List.take_append_drop _ _
  simp only [List.append_assoc]
  rw [h16, h12, h8, List.take_append_drop]


theorem b64DecodeGroups_lt (s : List Char) : ∀ b ∈ b64DecodeGroups s, b < 256 := by
  induction s using b64DecodeGroups.induct with
  | case1 c1 c2 c3 c4 rest ih =>
    intro b hb
    rw [b64DecodeGroups] at hb
    have v1 := b64Val_lt64 c1
    have v2 := b64Val_lt64 c2
    have v3 := b64Val_lt64 c3
    have v4 := b64Val_lt64 c4
    simp only [List.mem_cons] at hb
    rcases hb with rfl | rfl | rfl | hb
    · omega
    · omega
    · omega
    · exact ih b hb
  | case2 c1 c2 =>
    intro b hb
    rw [b64DecodeGroups] at hb
    have v1 := b64Val_lt64 c1
    have v2 := b64Val_lt64 c2
    simp only [List.mem_cons, List.not_mem_nil, or_false] at hb
    subst hb
    omega
  | case3 s h1 h2 =>
    intro b hb
    rw [b64DecodeGroups] at hb
    · exact absurd hb (List.not_mem_nil b)
    · exact h1
    · exact h2


theorem b64EncodeBytes_decodeGroups :
    ∀ (s : List Char), s.length % 4 = 2 → (∀ c ∈ s, isSlugChar c = true) →
    (∀ c, s.getLast? = some c → b64Val c % 16 = 0) →
    b64EncodeBytes (b64DecodeGroups s) = s := by
  intro s
  induction s using b64DecodeGroups.induct with
  | case1 c1 c2 c3 c4 rest ih =>
    intro hlen hchars hlast
    have v1 := b64Val_lt64 c1
    have v2 := b64Val_lt64 c2
    have v3 := b64Val_lt64 c3
    have v4 := b64Val_lt64 c4
    cases rest with
    | nil => simp at hlen
    | cons r1 rest' =>
      rw [b64DecodeGroups, b64EncodeBytes]
      rw [show (b64Val c1 * 4 + b64Val c2 / 16) / 4 = b64Val c1 from by omega]
      rw [show (b64Val c1 * 4 + b64Val c2 / 16) % 4 * 16 +
        (b64Val c2 % 16 * 16 + b64Val c3 / 4) / 16 = b64Val c2 from by omega]
      rw [show (b64Val c2 % 16 * 16 + b64Val c3 / 4) % 16 * 4 +
        (b64Val c3 % 4 * 64 + b64Val c4) / 64 = b64Val c3 from by omega]
      rw [show (b64Val c3 % 4 * 64 + b64Val c4) % 64 = b64Val c4 from by omega]
      rw [b64Char_b64Val c1 (hchars c1 (by simp)),
        b64Char_b64Val c2 (hchars c2 (by simp)),
        b64Char_b64Val c3 (hchars c3 (by simp)),
        b64Char_b64Val c4 (hchars c4 (by simp))]
      rw [ih (by simp at hlen ⊢; omega)
        (fun c hc => hchars c (by simp [hc]))
        (fun c hc => hlast c (by
          rw [show (c1 :: c2 :: c3 :: c4 :: r1 :: rest').getLast?
            = (r1 :: rest').getLast? from by
              rw [List.getLast?_cons_cons, List.getLast?_cons_cons,
                List.getLast?_cons_cons, List.getLast?_cons_cons]]
          exact hc))]
  | case2 c1 c2 =>
    intro hlen hchars hlast
    have v1 := b64Val_lt64 c1
    have v2 := b64Val_lt64 c2
    have hl : b64Val c2 % 16 = 0 := hlast c2 (by simp [List.getLast?])
    rw [b64DecodeGroups, b64EncodeBytes]
    rw [show (b64Val c1 * 4 + b64Val c2 / 16) / 4 = b64Val c1 from by omega]
    rw [show (b64Val c1 * 4 + b64Val c2 / 16) % 4 * 16 = b64Val c2 from by omega]
    rw [b64Char_b64Val c1 (hchars c1 (by simp)),
      b64Char_b64Val c2 (hchars c2 (by simp))]
  | case3 s h1 h2 =>
    intro hlen hchars hlast
    rcases s with _ | ⟨a, _ | ⟨b, _ | ⟨c, _ | ⟨d, t⟩⟩⟩⟩
    · simp at hlen
    · simp at hlen
    · exact absurd rfl (h2 a b)
    · simp at hlen
    · exact absurd rfl (h1 a b c d t)


theorem slug_roundtrip (slug : String) (h : isSlugId slug = true)
    (hlast : ∀ c, slug.data.getLast? = some c → b64Val c % 16 = 0) :
    slugidEncode (slugidDecode slug) = slug := by
  obtain ⟨hlen, hchars⟩ : slug.data.length = 22 ∧
      ∀ c ∈ slug.data, isSlugChar c = true := by
    simp only [isSlugId, Bool.and_eq_true, decide_eq_true_eq,
      List.all_eq_true] at h
    exact h
  rw [slugidEncode, slugidDecode]
  rw [filter_uuidFromBytes _ (b64DecodeGroups_lt slug.data),
    hexPairBytes_flatMap _ (b64DecodeGroups_lt slug.data),
    b64EncodeBytes_decodeGroups slug.data (by omega) hchars hlast]

/-! ### The JSON round trip (C9)

`JSON.parse(JSON.stringify(v))` reproduces `v` for every value of the
model: the renderer emits no leading whitespace, each rendered form is
parsed back by the corresponding parser arm, and the fuel
`length + 1` suffices because every recursive parse consumes at least one
rendered character. -/

theorem skipJsonWs_not_ws (c : Char) (cs : List Char) (h : isJsonWs c = false) :
    skipJsonWs (c :: cs) = c :: cs := by
  rw [skipJsonWs, if_neg (by simp [h])]

theorem digitChar_isDigit (d : Nat) (h : d < 10) : isDigitChar (digitChar d) = true := by
  interval_cases d <;> decide

theorem digitChar_toNat (d : Nat) (h : d < 10) : (digitChar d).toNat = 48 + d := by
  interval_cases d <;> decide

theorem natDigits_digits (m : Nat) : ∀ c ∈ natDigits m, isDigitChar c = true := by
  induction m using Nat.strong_induction_on with
  | _ m ih =>
    rw [natDigits]
    split
    · intro c hc
      simp only [List.mem_cons, List.not_mem_nil, or_false] at hc
      subst hc
      exact digitChar_isDigit _ (by omega)
    · intro c hc
      rcases List.mem_append.mp hc with h | h
      · exact ih (m / 10) (by omega) c h
      · simp only [List.mem_cons, List.not_mem_nil, or_false] at h
        subst h
        exact digitChar_isDigit _ (by omega)

theorem natDigits_exists_cons (m : Nat) :
    ∃ d ds, natDigits m = d :: ds ∧ isDigitChar d = true := by
  induction m using Nat.strong_induction_on with
  | _ m ih =>
    rw [natDigits]
    split
    · exact ⟨digitChar m, [], rfl, digitChar_isDigit _ (by omega)⟩
    · obtain ⟨d, ds, hds, hd⟩ := ih (m / 10) (by omega)
      exact ⟨d, ds ++ [digitChar (m % 10)], by rw [hds]; rfl, hd⟩

theorem spanDigits_append (ds rest : List Char)
    (hds : ∀ c ∈ ds, isDigitChar c = true)
    (hrest : ∀ c r', rest = c :: r' → isDigitChar c = false) :
    spanDigits (ds ++ rest) = (ds, rest) := by
  induction ds with
  | nil =>
    rw [List.nil_append]
    cases rest with
    | nil => rfl
    | cons c r' => rw [spanDigits, if_neg (by simp [hrest c r' rfl])]
  | cons d ds ih =>
    rw [List.cons_append, spanDigits, if_pos (by simp [hds d (by simp)])]
    rw [ih fun c hc => hds c (by simp [hc])]

theorem digitsVal_natDigits (m : Nat) : digitsVal (natDigits m) = m := by
  induction m using Nat.strong_induction_on with
  | _ m ih =>
    rw [natDigits]
    split
    · simp only [digitsVal, List.foldl_cons, List.foldl_nil]
      rw [digitChar_toNat _ (by omega)]
      omega
    · have happ : digitsVal (natDigits (m / 10) ++ [digitChar (m % 10)]) =
          digitsVal (natDigits (m / 10)) * 10 + ((digitChar (m % 10)).toNat - 48) := by
        simp [digitsVal, List.foldl_append]
      rw [happ, ih (m / 10) (by omega), digitChar_toNat _ (by omega)]
      omega

theorem parseJNum_intChars (n : Int) (rest : List Char)
    (hrest : jsonDelim rest = true) :
    parseJNum (intChars n ++ rest) = some (n, rest) := by
  obtain ⟨d, ds, hnd, hd0⟩ := natDigits_exists_cons n.natAbs
  have hdigits : ∀ c ∈ d :: ds, isDigitChar c = true := by
    rw [← hnd]
    exact natDigits_digits n.natAbs
  have hrest3 : ∀ c r', rest = c :: r' →
      isDigitChar c = false ∧ c ≠ '.' ∧ c ≠ 'e' ∧ c ≠ 'E' := by
    intro c r' hr'
    subst hr'
    rw [jsonDelim] at hrest
    simp only [Bool.and_eq_true, Bool.not_eq_true', Bool.not_eq_true,
      decide_eq_false_iff_not] at hrest
    exact ⟨hrest.1.1.1, hrest.1.1.2, hrest.1.2, hrest.2⟩
  have hspan : spanDigits (d :: ds ++ rest) = (d :: ds, rest) :=
    spanDigits_append _ _ hdigits fun c r' hr' => (hrest3 c r' hr').1
  have hval : digitsVal (d :: ds) = n.natAbs := by
    rw [← hnd, digitsVal_natDigits]
  by_cases hneg : n < 0
  · rw [intChars, if_pos hneg,
      show ['-'] ++ natDigits n.natAbs ++ rest = '-' :: ((d :: ds) ++ rest) from
        by rw [hnd]; rfl]
    rw [parseJNum]
    rw [hspan]
    dsimp only
    split
    · obtain ⟨_, h1, _, _⟩ := hrest3 _ _ rfl
      exact absurd rfl h1
    · obtain ⟨_, _, h2, _⟩ := hrest3 _ _ rfl
      exact absurd rfl h2
    · obtain ⟨_, _, _, h3⟩ := hrest3 _ _ rfl
      exact absurd rfl h3
    · rw [hval, if_pos rfl, show (-1 : Int) * (n.natAbs : Int) = n from by omega]
  · rw [intChars, if_neg hneg,
      show [] ++ natDigits n.natAbs ++ rest = d :: ds ++ rest from
        by rw [hnd]; rfl]
    have hdne : d ≠ '-' := by
      intro h
      rw [h] at hd0
      exact absurd hd0 (by decide)
    rw [parseJNum]
    rw [hspan]
    dsimp only
    split
    · obtain ⟨_, h1, _, _⟩ := hrest3 _ _ rfl
      exact absurd rfl h1
    · obtain ⟨_, _, h2, _⟩ := hrest3 _ _ rfl
      exact absurd rfl h2
    · obtain ⟨_, _, _, h3⟩ := hrest3 _ _ rfl
      exact absurd rfl h3
    · rw [hval, if_neg (by simp), show (1 : Int) * (n.natAbs : Int) = n from by omega]
    · intro r hr
      injection hr with h1 _
      exact hdne h1


theorem parseJStrAux_escape (acc : List Char) (c : Char) (cs : List Char) :
    parseJStrAux acc (escapeJsonChar c ++ cs) = parseJStrAux (c :: acc) cs := by
  rw [escapeJsonChar]
  by_cases h1 : c = '"'
  · subst h1; rw [if_pos rfl]; rfl
  rw [if_neg h1]
  by_cases h2 : c = '\\'
  · subst h2; rw [if_pos rfl]; rfl
  rw [if_neg h2]
  by_cases h3 : c.toNat = 8
  · rw [if_pos h3]
    show parseJStrAux (Char.ofNat 8 :: acc) cs = _
    rw [show (8 : Nat) = c.toNat from h3.symm, Char.ofNat_toNat]
  rw [if_neg h3]
  by_cases h4 : c = '\t'
  · subst h4; rw [if_pos rfl]; rfl
  rw [if_neg h4]
  by_cases h5 : c = '\n'
  · subst h5; rw [if_pos rfl]; rfl
  rw [if_neg h5]
  by_cases h6 : c.toNat = 12
  · rw [if_pos h6]
    show parseJStrAux (Char.ofNat 12 :: acc) cs = _
    rw [show (12 : Nat) = c.toNat from h6.symm, Char.ofNat_toNat]
  rw [if_neg h6]
  by_cases h7 : c = '\r'
  · subst h7; rw [if_pos rfl]; rfl
  rw [if_neg h7]
  by_cases h8 : c.toNat < 32
  · rw [if_pos h8]
    rw [show (['\\', 'u', '0', '0', hexDigitL (c.toNat / 16),
      hexDigitL (c.toNat % 16)] : List Char) ++ cs = '\\' :: 'u' :: '0' :: '0'
      :: hexDigitL (c.toNat / 16) :: hexDigitL (c.toNat % 16) :: cs from rfl]
    rw [parseJStrAux]
    rw [show hexVal '0' = some 0 from by decide,
      hexVal_hexDigitL _ (by omega), hexVal_hexDigitL _ (by omega)]
    dsimp only
    rw [show ((0 * 16 + 0) * 16 + c.toNat / 16) * 16 + c.toNat % 16 = c.toNat
      from by omega]
    rw [if_pos (show Nat.isValidChar c.toNat from c.valid), Char.ofNat_toNat]
  · rw [if_neg h8]
    rw [show (([c] : List Char) ++ cs) = c :: cs from rfl]
    conv_lhs => rw [parseJStrAux.eq_def]
    split <;> simp_all


theorem parseJStrAux_flat (s : List Char) (cs : List Char) (acc : List Char) :
    parseJStrAux acc (s.flatMap escapeJsonChar ++ ('"' :: cs)) =
      some (acc.reverse ++ s, cs) := by
  induction s generalizing acc with
  | nil =>
    rw [List.flatMap_nil, List.nil_append]
    rw [show parseJStrAux acc ('"' :: cs) = some (acc.reverse, cs) from rfl]
    simp
  | cons c s ih =>
    rw [List.flatMap_cons, List.append_assoc, parseJStrAux_escape, ih]
    simp

theorem parseJStr_render (s : String) (cs : List Char) :
    parseJStr (s.data.flatMap escapeJsonChar ++ ('"' :: cs)) = some (s, cs) := by
  rw [parseJStr, parseJStrAux_flat]
  simp

theorem isDigitChar_notDelims (d : Char) (h : isDigitChar d = true) :
    isJsonWs d = false ∧ d ≠ ']' ∧ d ≠ '\x7d' ∧ d ≠ ',' ∧ d ≠ ':' ∧
    d ≠ 'n' ∧ d ≠ 't' ∧ d ≠ 'f' ∧ d ≠ '"' ∧ d ≠ '[' ∧ d ≠ '\x7b' ∧ d ≠ '-' := by
  simp only [isDigitChar, charBetween, Bool.and_eq_true, decide_eq_true_eq] at h
  refine ⟨?_, ?_, ?_, ?_, ?_, ?_, ?_, ?_, ?_, ?_, ?_, ?_⟩
  · rcases hb : isJsonWs d with _ | _
    · rfl
    · exfalso
      simp only [isJsonWs, Bool.or_eq_true, decide_eq_true_eq] at hb
      rcases hb with ((rfl | rfl) | rfl) | rfl <;> exact absurd h (by decide)
  all_goals intro heq; subst heq; exact absurd h (by decide)

theorem jvRender_ne_nil_head (v : Jv) :
    ∃ c cs, jvRender v = c :: cs ∧
      (isJsonWs c = false ∧ c ≠ ']' ∧ c ≠ '\x7d') := by
  cases v with
  | num n =>
    obtain ⟨d, ds, hnd, hd⟩ := natDigits_exists_cons n.natAbs
    obtain ⟨hw, hr1, hr2, _⟩ := isDigitChar_notDelims d hd
    by_cases hneg : n < 0
    · refine ⟨'-', natDigits n.natAbs, ?_, by decide⟩
      rw [jvRender, intChars, if_pos hneg]
      rfl
    · refine ⟨d, ds, ?_, hw, hr1, hr2⟩
      rw [jvRender, intChars, if_neg hneg, List.nil_append, hnd]
  | bool b => cases b <;> exact ⟨_, _, rfl, by decide⟩
  | null => exact ⟨_, _, rfl, by decide⟩
  | str s => exact ⟨_, _, rfl, by decide⟩
  | arr xs => exact ⟨_, _, rfl, by decide⟩
  | obj fs => exact ⟨_, _, rfl, by decide⟩

theorem renderJArr_cons (x : Jv) (xs : List Jv) :
    ∃ t, renderJArr (x :: xs) = jvRender x ++ t := by
  cases xs with
  | nil => exact ⟨[], by rw [renderJArr, List.append_nil]⟩
  | cons y ys => exact ⟨_, by rw [renderJArr]⟩


theorem parseJVal_other (fuel : Nat) (c : Char) (cs : List Char)
    (hw : isJsonWs c = false) (hn : c ≠ 'n') (ht : c ≠ 't') (hf : c ≠ 'f')
    (hq : c ≠ '"') (hb : c ≠ '[') (ho : c ≠ '\x7b') :
    parseJVal (fuel + 1) (c :: cs) =
      if c = '-' || isDigitChar c then
        (parseJNum (c :: cs)).map fun p => (Jv.num p.1, p.2)
      else none := by
  rw [parseJVal, skipJsonWs_not_ws _ _ hw]
  split <;> simp_all

theorem parseJVal_lbrack (fuel : Nat) (r : List Char) :
    parseJVal (fuel + 1) ('[' :: r) = parseJArrBody fuel r := rfl

theorem parseJVal_lbrace (fuel : Nat) (r : List Char) :
    parseJVal (fuel + 1) ('\x7b' :: r) = parseJObjBody fuel r := rfl

theorem parseJVal_quote (fuel : Nat) (r : List Char) :
    parseJVal (fuel + 1) ('"' :: r)
      = (parseJStr r).map fun p => (Jv.str p.1, p.2) := rfl

theorem parseJItems_step (fuel : Nat) (cs : List Char) (v : Jv) (r : List Char)
    (h : parseJVal fuel cs = some (v, r)) :
    parseJItems (fuel + 1) cs = parseJItemsNext fuel v r := by
  rw [parseJItems, h]
  rfl

theorem parseJItemsNext_comma (fuel : Nat) (v : Jv) (r' : List Char)
    (xs : List Jv) (rest : List Char) (h : parseJItems fuel r' = some (xs, rest)) :
    parseJItemsNext fuel v (',' :: r') = some (v :: xs, rest) := by
  rw [show parseJItemsNext fuel v (',' :: r') = (match parseJItems fuel r' with
      | some (xs, r'') => some (v :: xs, r'')
      | none => none) from rfl, h]

theorem parseJItemsNext_rbrack (fuel : Nat) (v : Jv) (r' : List Char) :
    parseJItemsNext fuel v (']' :: r') = some ([v], r') := rfl

theorem parseJFields_quote (fuel : Nat) (r : List Char) (k : String)
    (r1 : List Char) (h : parseJStr r = some (k, r1)) :
    parseJFields (fuel + 1) ('"' :: r) = parseJFieldsResume fuel k r1 := by
  rw [show parseJFields (fuel + 1) ('"' :: r) = (match parseJStr r with
      | none => none
      | some (k, r1) => parseJFieldsResume fuel k r1) from rfl, h]

theorem parseJFieldsResume_colon (fuel : Nat) (k : String) (r2 : List Char)
    (v : Jv) (r3 : List Char) (h : parseJVal fuel r2 = some (v, r3)) :
    parseJFieldsResume fuel k (':' :: r2) = parseJFieldsAfter fuel k v r3 := by
  rw [show parseJFieldsResume fuel k (':' :: r2) = (match parseJVal fuel r2 with
      | none => none
      | some (v, r3) => parseJFieldsAfter fuel k v r3) from rfl, h]

theorem parseJFieldsAfter_comma (fuel : Nat) (k : String) (v : Jv)
    (r4 : List Char) (fs : List (String × Jv)) (r5 : List Char)
    (h : parseJFields fuel r4 = some (fs, r5)) :
    parseJFieldsAfter fuel k v (',' :: r4) = some ((k, v) :: fs, r5) := by
  rw [show parseJFieldsAfter fuel k v (',' :: r4) = (match parseJFields fuel r4 with
      | some (fs, r5) => some ((k, v) :: fs, r5)
      | none => none) from rfl, h]

theorem parseJFieldsAfter_rbrace (fuel : Nat) (k : String) (v : Jv)
    (r4 : List Char) :
    parseJFieldsAfter fuel k v ('\x7d' :: r4) = some ([(k, v)], r4) := rfl


mutual

theorem parseJVal_render (fuel : Nat) (v : Jv) (rest : List Char)
    (hfuel : (jvRender v).length < fuel) (hrest : jsonDelim rest = true) :
    parseJVal fuel (jvRender v ++ rest) = some (v, rest) := by
  match fuel with
  | 0 => exact absurd hfuel (Nat.not_lt_zero _)
  | fuel + 1 =>
    cases v with
    | null => rfl
    | bool b => cases b <;> rfl
    | str s =>
      rw [jvRender, renderJStr]
      simp only [List.cons_append, List.append_assoc, List.singleton_append,
          List.nil_append]
      rw [parseJVal_quote, parseJStr_render]
      rfl
    | num n =>
      obtain ⟨d, ds, hnd, hd⟩ := natDigits_exists_cons n.natAbs
      by_cases hneg : n < 0
      · rw [jvRender, intChars, if_pos hneg,
          show (['-'] ++ natDigits n.natAbs) ++ rest
            = '-' :: (natDigits n.natAbs ++ rest) from rfl,
          parseJVal_other fuel '-' _ (by decide) (by decide) (by decide)
            (by decide) (by decide) (by decide) (by decide),
          if_pos (by decide),
          show '-' :: (natDigits n.natAbs ++ rest) = intChars n ++ rest from by
            rw [intChars, if_pos hneg]
            rfl,
          parseJNum_intChars n rest hrest]
        rfl
      · obtain ⟨hw, _, _, _, _, hn, ht, hf, hq, hb, ho, _⟩ :=
          isDigitChar_notDelims d hd
        rw [jvRender, intChars, if_neg hneg, List.nil_append,
          show natDigits n.natAbs ++ rest = d :: (ds ++ rest) from by
            rw [hnd]
            rfl,
          parseJVal_other fuel d _ hw hn ht hf hq hb ho,
          if_pos (by simp [hd]),
          show d :: (ds ++ rest) = intChars n ++ rest from by
            rw [intChars, if_neg hneg, List.nil_append, hnd]
            rfl,
          parseJNum_intChars n rest hrest]
        rfl
    | arr xs =>
      cases xs with
      | nil => rfl
      | cons x xs' =>
        have hlen : (jvRender (Jv.arr (x :: xs'))).length
            = (renderJArr (x :: xs')).length + 2 := by
          rw [jvRender]
          simp
        obtain ⟨t, hT⟩ := renderJArr_cons x xs'
        obtain ⟨c0, cs0, hx, hw0, hne1, _⟩ := jvRender_ne_nil_head x
        rw [jvRender]
        simp only [List.cons_append, List.append_assoc, List.singleton_append,
          List.nil_append]
        rw [parseJVal_lbrack, parseJArrBody,
          show renderJArr (x :: xs') ++ (']' :: rest)
            = c0 :: (cs0 ++ t ++ (']' :: rest)) from by
          rw [hT, hx]
          simp,
          skipJsonWs_not_ws _ _ hw0]
        split
        · rename_i heq
          injection heq with heq1 _
          exact absurd heq1 hne1
        · rw [show c0 :: (cs0 ++ t ++ (']' :: rest))
              = renderJArr (x :: xs') ++ (']' :: rest) from by
            rw [hT, hx]
            simp,
            parseJItems_render fuel (x :: xs') rest (by simp)
              (by rw [hlen] at hfuel; omega)]
    | obj fs =>
      cases fs with
      | nil => rfl
      | cons kv fs' =>
        have hlen : (jvRender (Jv.obj (kv :: fs'))).length
            = (renderJObj (kv :: fs')).length + 2 := by
          rw [jvRender]
          simp
        have hobj : ∃ t, renderJObj (kv :: fs') = '"' ::
            (kv.1.data.flatMap escapeJsonChar ++ ('"' :: t)) := by
          cases fs' with
          | nil =>
            refine ⟨':' :: jvRender kv.2, ?_⟩
            rw [show renderJObj [kv] = renderJStr kv.1 ++ ':' :: jvRender kv.2
              from by rw [renderJObj], renderJStr]
            simp
          | cons f fs'' =>
            refine ⟨':' :: (jvRender kv.2 ++ ',' :: renderJObj (f :: fs'')), ?_⟩
            rw [show renderJObj (kv :: f :: fs'')
              = renderJStr kv.1 ++ ':' :: jvRender kv.2 ++ ','
                :: renderJObj (f :: fs'') from by rw [renderJObj], renderJStr]
            simp
        obtain ⟨t, hT⟩ := hobj
        rw [jvRender]
        simp only [List.cons_append, List.append_assoc, List.singleton_append,
          List.nil_append]
        rw [parseJVal_lbrace, parseJObjBody,
          show renderJObj (kv :: fs') ++ ('\x7d' :: rest)
            = '"' :: (kv.1.data.flatMap escapeJsonChar
              ++ ('"' :: (t ++ ('\x7d' :: rest)))) from by
          rw [hT]
          simp,
          skipJsonWs_not_ws _ _ (by decide)]
        split
        · rename_i heq
          injection heq with heq1 _
          exact absurd heq1 (by decide)
        · rw [show '"' :: (kv.1.data.flatMap escapeJsonChar
                ++ ('"' :: (t ++ ('\x7d' :: rest))))
              = renderJObj (kv :: fs') ++ ('\x7d' :: rest) from by
            rw [hT]
            simp,
            parseJFields_render fuel (kv :: fs') rest (by simp)
              (by rw [hlen] at hfuel; omega)]
termination_by fuel

theorem parseJItems_render (fuel : Nat) (xs : List Jv) (rest : List Char)
    (hne : xs ≠ []) (hfuel : (renderJArr xs).length + 1 < fuel) :
    parseJItems fuel (renderJArr xs ++ (']' :: rest)) = some (xs, rest) := by
  match fuel with
  | 0 => exact absurd hfuel (Nat.not_lt_zero _)
  | fuel + 1 =>
    cases xs with
    | nil => exact absurd rfl hne
    | cons x xs' =>
      cases xs' with
      | nil =>
        have hlen : (renderJArr [x]).length = (jvRender x).length := by
          rw [renderJArr]
        rw [parseJItems_step fuel _ x (']' :: rest) (by
          rw [show renderJArr [x] ++ (']' :: rest)
            = jvRender x ++ (']' :: rest) from by rw [renderJArr]]
          exact parseJVal_render fuel x (']' :: rest) (by omega) rfl)]
        exact parseJItemsNext_rbrack fuel x rest
      | cons y ys =>
        have hlen : (renderJArr (x :: y :: ys)).length
            = (jvRender x).length + 1 + (renderJArr (y :: ys)).length := by
          rw [renderJArr]
          simp
          omega
        rw [parseJItems_step fuel _ x
          (',' :: (renderJArr (y :: ys) ++ (']' :: rest))) (by
          rw [show renderJArr (x :: y :: ys) ++ (']' :: rest) = jvRender x
            ++ (',' :: (renderJArr (y :: ys) ++ (']' :: rest))) from by
            rw [renderJArr]
            simp]
          exact parseJVal_render fuel x
            (',' :: (renderJArr (y :: ys) ++ (']' :: rest))) (by omega) rfl)]
        exact parseJItemsNext_comma fuel x _ (y :: ys) rest
          (parseJItems_render fuel (y :: ys) rest (by simp) (by omega))
termination_by fuel

theorem parseJFields_render (fuel : Nat) (fs : List (String × Jv))
    (rest : List Char) (hne : fs ≠ [])
    (hfuel : (renderJObj fs).length + 1 < fuel) :
    parseJFields fuel (renderJObj fs ++ ('\x7d' :: rest)) = some (fs, rest) := by
  match fuel with
  | 0 => exact absurd hfuel (Nat.not_lt_zero _)
  | fuel + 1 =>
    cases fs with
    | nil => exact absurd rfl hne
    | cons kv fs' =>
      cases fs' with
      | nil =>
        have hlen : (renderJObj [kv]).length
            = (kv.1.data.flatMap escapeJsonChar).length + 3
              + (jvRender kv.2).length := by
          rw [show renderJObj [kv] = renderJStr kv.1 ++ ':' :: jvRender kv.2
            from by rw [renderJObj], renderJStr]
          simp
          omega
        rw [show renderJObj [kv] ++ ('\x7d' :: rest)
            = '"' :: (kv.1.data.flatMap escapeJsonChar
              ++ ('"' :: (':' :: (jvRender kv.2 ++ ('\x7d' :: rest))))) from by
          rw [show renderJObj [kv] = renderJStr kv.1 ++ ':' :: jvRender kv.2
            from by rw [renderJObj], renderJStr]
          simp]
        rw [parseJFields_quote fuel _ kv.1
          (':' :: (jvRender kv.2 ++ ('\x7d' :: rest))) (parseJStr_render _ _)]
        rw [parseJFieldsResume_colon fuel kv.1 _ kv.2 ('\x7d' :: rest)
          (parseJVal_render fuel kv.2 ('\x7d' :: rest) (by omega) rfl)]
        rw [parseJFieldsAfter_rbrace]
      | cons f fs'' =>
        have hlen : (renderJObj (kv :: f :: fs'')).length
            = (kv.1.data.flatMap escapeJsonChar).length + 3
              + (jvRender kv.2).length + 1
              + (renderJObj (f :: fs'')).length := by
          rw [show renderJObj (kv :: f :: fs'')
            = renderJStr kv.1 ++ ':' :: jvRender kv.2 ++ ','
              :: renderJObj (f :: fs'') from by rw [renderJObj], renderJStr]
          simp
          omega
        rw [show renderJObj (kv :: f :: fs'') ++ ('\x7d' :: rest)
            = '"' :: (kv.1.data.flatMap escapeJsonChar
              ++ ('"' :: (':' :: (jvRender kv.2
                ++ (',' :: (renderJObj (f :: fs'') ++ ('\x7d' :: rest)))))))
            from by
          rw [show renderJObj (kv :: f :: fs'')
            = renderJStr kv.1 ++ ':' :: jvRender kv.2 ++ ','
              :: renderJObj (f :: fs'') from by rw [renderJObj], renderJStr]
          simp]
        rw [parseJFields_quote fuel _ kv.1
          (':' :: (jvRender kv.2
            ++ (',' :: (renderJObj (f :: fs'') ++ ('\x7d' :: rest)))))
          (parseJStr_render _ _)]
        rw [parseJFieldsResume_colon fuel kv.1 _ kv.2
          (',' :: (renderJObj (f :: fs'') ++ ('\x7d' :: rest)))
          (parseJVal_render fuel kv.2
            (',' :: (renderJObj (f :: fs'') ++ ('\x7d' :: rest)))
            (by omega) rfl)]
        rw [parseJFieldsAfter_comma fuel kv.1 kv.2 _ (f :: fs'') rest
          (parseJFields_render fuel (f :: fs'') rest (by simp) (by omega))]
termination_by fuel

end

theorem jsonParse_stringify (v : Jv) : jsonParse (jsonStringify v) = some v := by
  rw [jsonStringify, jsonParse,
    show (⟨jvRender v⟩ : String).data = jvRender v from rfl]
  have h := parseJVal_render ((jvRender v).length + 1) v [] (by simp) rfl
  rw [List.append_nil] at h
  rw [h]
  rfl

mutual

theorem jvBeq_refl : ∀ v : Jv, jvBeq v v = true
  | .null => rfl
  | .bool b => by cases b <;> rfl
  | .num n => by simp [jvBeq]
  | .str s => by simp [jvBeq]
  | .arr xs => by rw [jvBeq]; exact jvBeqList_refl xs
  | .obj fs => by rw [jvBeq]; exact jvBeqFields_refl fs

theorem jvBeqList_refl : ∀ xs : List Jv, jvBeqList xs xs = true
  | [] => rfl
  | x :: xs => by rw [jvBeqList, jvBeq_refl x, jvBeqList_refl xs]; rfl

theorem jvBeqFields_refl : ∀ fs : List (String × Jv), jvBeqFields fs fs = true
  | [] => rfl
  | (k, v) :: fs => by rw [jvBeqFields, jvBeq_refl v, jvBeqFields_refl fs]; simp

end

/-- `BlobType.equal` is reflexive. -/
theorem blob_equal_refl (a : List Nat) : BlobType.equal a a = true := by
  simp only [BlobType.equal, Bool.and_eq_true, decide_eq_true_eq]
  refine ⟨by simp, ?_⟩
  induction a with
  | nil => rfl
  | cons h t ih => simpa using ih

/-- **C9 counterexample.** The claimed round-trip fails for `SlugIdType`:
the slug `AAAAAAAAAAAAAAAAAAAAAB` is in the declared domain
(`/^[a-z0-9_-]{22}$/i`), but `slugid.decode` drops the low four bits of its
final character, so serialize-then-deserialize returns the different slug
`AAAAAAAAAAAAAAAAAAAAAA`, which is not `equal` (`===`) to the original. -/
theorem slugid_roundtrip_counterexample :
    isSlugId "AAAAAAAAAAAAAAAAAAAAAB" = true ∧
    SlugIdType.deserialize (SlugIdType.serialize "AAAAAAAAAAAAAAAAAAAAAB") =
      some "AAAAAAAAAAAAAAAAAAAAAA" ∧
    SlugIdType.equal "AAAAAAAAAAAAAAAAAAAAAA" "AAAAAAAAAAAAAAAAAAAAAB" = false :=
  ⟨by decide, by decide, by decide⟩

/-- **C9 (amended).** Deserializing the serialized form yields a value
`equal` to the original for every value in the type's domain for
`StringType`, `NumberType`, `DateType`, `UUIDType`, `BlobType` and
`JSONType`; for `SlugIdType` the round-trip holds exactly on the slugs
whose final base64url character has value divisible by 16 (`A`, `Q`, `g`,
`w`) — the low four bits of the 22nd character are dropped by
`slugid.decode`, so other slugs do not round-trip
(`slugid_roundtrip_counterexample`). -/
theorem type_roundtrips (sv : String) (nv : Int) (dv : Int) (uv : String)
    (bv : List Nat) (jv : Jv) (slug : String)
    (hu : isUuid uv = true)
    (hs : isSlugId slug = true)
    (hcanon : ∀ c, slug.data.getLast? = some c → b64Val c % 16 = 0) :
    (∃ r, StringType.deserialize (StringType.serialize sv) = some r ∧
      StringType.equal r sv = true) ∧
    (∃ r, NumberType.deserialize (NumberType.serialize nv) = some r ∧
      NumberType.equal r nv = true) ∧
    (∃ r, DateType.deserialize (DateType.serialize dv) = some r ∧
      DateType.equal r dv = true) ∧
    (∃ r, UUIDType.deserialize (UUIDType.serialize uv) = some r ∧
      UUIDType.equal r uv = true) ∧
    (∃ r, BlobType.deserialize (BlobType.serialize bv) = some r ∧
      BlobType.equal r bv = true) ∧
    (∃ r, JSONType.deserialize (JSONType.serialize jv) = some r ∧
      JSONType.equal r jv = true) ∧
    (∃ r, SlugIdType.deserialize (SlugIdType.serialize slug) = some r ∧
      SlugIdType.equal r slug = true) := by
  refine ⟨⟨sv, rfl, by simp [StringType.equal]⟩,
    ⟨nv, rfl, by simp [NumberType.equal]⟩,
    ⟨dv, rfl, by simp [DateType.equal]⟩,
    ⟨uv, ?_, by simp [UUIDType.equal]⟩,
    ⟨bv, rfl, blob_equal_refl bv⟩,
    ⟨jv, ?_, ?_⟩,
    ⟨slug, ?_, by simp [SlugIdType.equal]⟩⟩
  · rw [UUIDType.serialize, UUIDType.deserialize, if_pos hu]
  · rw [JSONType.serialize, JSONType.deserialize, jsonParse_stringify]
  · rw [JSONType.equal]
    exact jvBeq_refl jv
  · rw [SlugIdType.serialize, SlugIdType.deserialize,
      slug_roundtrip slug hs hcanon]

/-- Witness for **C9 (amended)** at concrete values of every type. -/
theorem type_roundtrips_witness :
    isUuid "01234567-89ab-cdef-0123-456789abcdef" = true ∧
    isSlugId "AAAAAAAAAAAAAAAAAAAAAQ" = true ∧
    (∀ c, "AAAAAAAAAAAAAAAAAAAAAQ".data.getLast? = some c →
      b64Val c % 16 = 0) ∧
    ((∃ r, StringType.deserialize (StringType.serialize "x~") = some r ∧
      StringType.equal r "x~" = true) ∧
    (∃ r, NumberType.deserialize (NumberType.serialize 5) = some r ∧
      NumberType.equal r 5 = true) ∧
    (∃ r, DateType.deserialize (DateType.serialize (-3)) = some r ∧
      DateType.equal r (-3) = true) ∧
    (∃ r, UUIDType.deserialize
      (UUIDType.serialize "01234567-89ab-cdef-0123-456789abcdef") = some r ∧
      UUIDType.equal r "01234567-89ab-cdef-0123-456789abcdef" = true) ∧
    (∃ r, BlobType.deserialize (BlobType.serialize [0, 255]) = some r ∧
      BlobType.equal r [0, 255] = true) ∧
    (∃ r, JSONType.deserialize (JSONType.serialize
      (Jv.obj [("a", Jv.arr [Jv.num (-1), Jv.null, Jv.str "s"])])) = some r ∧
      JSONType.equal r
        (Jv.obj [("a", Jv.arr [Jv.num (-1), Jv.null, Jv.str "s"])]) = true) ∧
    (∃ r, SlugIdType.deserialize
      (SlugIdType.serialize "AAAAAAAAAAAAAAAAAAAAAQ") = some r ∧
      SlugIdType.equal r "AAAAAAAAAAAAAAAAAAAAAQ" = true)) := by
  have hcanon : ∀ c, "AAAAAAAAAAAAAAAAAAAAAQ".data.getLast? = some c →
      b64Val c % 16 = 0 := by
    intro c hc
    rw [show "AAAAAAAAAAAAAAAAAAAAAQ".data.getLast? = some 'Q' from by decide]
      at hc
    injection hc with h
    subst h
    decide
  exact ⟨by decide, by decide, hcanon,
    type_roundtrips "x~" 5 (-3) "01234567-89ab-cdef-0123-456789abcdef"
      [0, 255] (Jv.obj [("a", Jv.arr [Jv.num (-1), Jv.null, Jv.str "s"])])
      "AAAAAAAAAAAAAAAAAAAAAQ" (by decide) (by decide) hcanon⟩

end AzureEntities
